import Mathlib

/-
Shallow embedding of the aws_bundle package (go_ami_tools): the streaming
bundle pipeline (tar framing, gzip, AES-128-CBC with PKCS#7 padding, fixed
size chunking), the hashing sink, the bundle writer and the manifest
population, together with theorems settling the frozen claims.

Conventions of the embedding:
- Go byte slices are `List Nat` (each element a byte value).
- Go errors are `Option GoErr`; `none` is a nil error.
- Writers that may loop forever (the chunk writer retries opening a part
  file without ever consulting the error) are modelled with fuel; a result
  of `none` at every fuel value means the Go loop does not terminate.
- The SHA-1 hash itself is not modelled: wherever the Go code stores a
  SHA-1 digest, the model stores the exact byte stream fed to the hash
  (fields named with digestInput or hash input below). Statements about
  digest equality are made about these hash inputs.
- The AES block permutation (crypto/aes with cipher.NewCBCEncrypter) and
  the deflate compressor (github.com/klauspost/pgzip) are external
  libraries, not code of this repository; they enter as parameters
  crypt and deflate of the pipeline, with gzip framing and PKCS#7
  padding modelled explicitly.
-/

namespace AwsBundle

set_option maxRecDepth 2000000

abbrev Bytes := List Nat

/-- Errors surfaced by the modelled Go code. -/
inductive GoErr where
  | aesClosed
  | writerClosed
  | gzipClosed
  | sinkOpen (name : String)
  | sinkWrite
  | sinkClose
  | tarWriteTooLong
  | tarMissedBytes (n : Nat)
  | sizeMismatch (expected actual : Nat)
  deriving DecidableEq, Repr

/-- The Sink interface (aws_bundle.Sink): WriteBundleFile returns a byte
sink for a named file. The model keys all operations on the returned
write-closer by its filename, which is sound because the pipeline opens
each filename at most once (the accumulating sink of the test suite
panics on duplicates). -/
structure SinkM (σ : Type) where
  openFile : σ → String → σ × Option GoErr
  writeFile : σ → String → Bytes → σ × Nat × Option GoErr
  closeFile : σ → String → σ × Option GoErr

/-- A downstream io.Writer: state, payload, then new state, byte count and
error. A `none` result models a Write call that never returns. -/
abbrev WriteFn (δ : Type) := δ → Bytes → Option (δ × Nat × Option GoErr)

/-! ### countingWriter (source: countingWriter.Write) -/

/-- countingWriter.Write: delegate, then add the returned count to n,
returning count and error unchanged. -/
def countingWrite (W : WriteFn δ) : WriteFn (Nat × δ) := fun cd p =>
  match W cd.2 p with
  | none => none
  | some (d1, n, err) => some ((cd.1 + n, d1), n, err)

/-! ### chunkWriter (source: aws_bundle/chunk_writer.go)

The current part file io.WriteCloser is modelled by the flag curOpen
(true when cw.current.w is non-nil) plus the filename used to address
writes on the sink. The unused sha1 map of the Go struct is omitted. -/

structure ChunkWriter where
  name : String
  chunkSize : Nat
  curOpen : Bool
  curFilename : String
  curIndex : Nat
  curOffset : Nat
  deriving DecidableEq, Repr

def newChunkWriter (name : String) (chunkSize : Nat) : ChunkWriter :=
  { name := name, chunkSize := chunkSize,
    curOpen := false, curFilename := "", curIndex := 0, curOffset := 0 }

def bytesRemainingInChunk (cw : ChunkWriter) : Nat :=
  if cw.curOpen then cw.chunkSize - cw.curOffset else 0

def cwCloseChunk (S : SinkM σ) (cw : ChunkWriter) (s : σ) :
    (ChunkWriter × σ) × Option GoErr :=
  let r := S.closeFile s cw.curFilename
  (({ cw with curOpen := false }, r.1), r.2)

/-- chunkWriter.newChunk: close the current chunk if any, then derive the
next filename, advance the index, reset the offset and open the file. -/
def cwNewChunk (S : SinkM σ) (cw : ChunkWriter) (s : σ) :
    (ChunkWriter × σ) × Option GoErr :=
  match (if cw.curOpen then cwCloseChunk S cw s else ((cw, s), none)) with
  | ((cw1, s1), some e) => ((cw1, s1), some e)
  | ((cw1, s1), none) =>
    let filename := cw1.name ++ ".part." ++ toString cw1.curIndex
    let cw2 := { cw1 with curFilename := filename, curIndex := cw1.curIndex + 1,
                          curOffset := 0 }
    match S.openFile s1 filename with
    | (s2, some e) => ((cw2, s2), some e)
    | (s2, none) => (({ cw2 with curOpen := true }, s2), none)

/-- The loop body of chunkWriter.Write. Exactly as in the source, the
error returned by newChunk is discarded. Fuel counts loop iterations;
`none` means the loop ran longer than the given fuel. -/
def cwWriteLoop (S : SinkM σ) :
    Nat → ChunkWriter → σ → Bytes → Nat →
    Option ((ChunkWriter × σ) × Nat × Option GoErr)
  | 0, _, _, _, _ => none
  | fuel + 1, cw, s, p, n =>
    if p.length = 0 then some ((cw, s), n, none)
    else
      if bytesRemainingInChunk cw = 0 then
        match cwNewChunk S cw s with
        | ((cw1, s1), _) => cwWriteLoop S fuel cw1 s1 p n
      else
        let bytes := bytesRemainingInChunk cw
        let bytes1 := if bytes > p.length then p.length else bytes
        let now := p.take bytes1
        let later := p.drop bytes1
        match S.writeFile s cw.curFilename now with
        | (s1, thisN, some _) =>
          some (({ cw with curOffset := cw.curOffset + thisN }, s1), n + thisN,
                some GoErr.sinkWrite)
        | (s1, thisN, none) =>
          cwWriteLoop S fuel { cw with curOffset := cw.curOffset + thisN } s1
            later (n + thisN)

/-- chunkWriter.Write with enough fuel for every terminating execution:
each loop iteration either consumes at least one byte of p or is one of at
most two consecutive rotations per consumed byte. -/
def cwWrite (S : SinkM σ) : WriteFn (ChunkWriter × σ) := fun cws p =>
  cwWriteLoop S (4 * p.length + 4) cws.1 cws.2 p 0

def cwClose (S : SinkM σ) (cw : ChunkWriter) (s : σ) :
    (ChunkWriter × σ) × Option GoErr :=
  if cw.curOpen then cwCloseChunk S cw s else ((cw, s), none)

/-! ### hashingSink (source: hashingSink / hashingSinkWriter)

files holds one (filename, hashed byte stream) record per closed file, in
close order; writers holds the live per-file hash states, keyed by
filename. The Go code stores h.Sum(nil); the model stores the bytes fed
to h (see the conventions above). -/

def lookupBytes : List (String × Bytes) → String → Bytes
  | [], _ => []
  | (k, v) :: rest, name => if k = name then v else lookupBytes rest name

def updateBytes : List (String × Bytes) → String → Bytes → List (String × Bytes)
  | [], _, _ => []
  | (k, v) :: rest, name, p =>
    if k = name then (k, v ++ p) :: rest else (k, v) :: updateBytes rest name p

structure HashingSink (σ : Type) where
  s : σ
  files : List (String × Bytes)
  writers : List (String × Bytes)
  deriving DecidableEq, Repr

def newHashingSink (s : σ) : HashingSink σ :=
  { s := s, files := [], writers := [] }

/-- hashingSink.WriteBundleFile, hashingSinkWriter.Write and
hashingSinkWriter.Close. Close appends the (filename, digest) record to
the ordered list first and then delegates to the underlying close. -/
def hashingSinkM (S : SinkM σ) : SinkM (HashingSink σ) where
  openFile hs name :=
    match S.openFile hs.s name with
    | (s1, some e) => ({ hs with s := s1 }, some e)
    | (s1, none) =>
      ({ hs with s := s1, writers := hs.writers ++ [(name, [])] }, none)
  writeFile hs name p :=
    let writers1 := updateBytes hs.writers name p
    match S.writeFile hs.s name p with
    | (s1, n, err) => ({ hs with s := s1, writers := writers1 }, n, err)
  closeFile hs name :=
    let record := (name, lookupBytes hs.writers name)
    let files1 := hs.files ++ [record]
    match S.closeFile hs.s name with
    | (s1, err) => ({ hs with s := s1, files := files1 }, err)

/-! ### aesCbcWriter (source: newAes128CbcWriter / Write / writeBlocks / Close)

The CBC block mode is a length-preserving transformation supplied as the
parameter crypt; the 16-byte buffer of partial plaintext and the
closed state (cbc == nil) are modelled explicitly. -/

structure AesCbcWriter where
  buffer : Bytes
  closed : Bool
  deriving DecidableEq, Repr

def newAesCbcWriter : AesCbcWriter := { buffer := [], closed := false }

/-- The ciphertext written by aesCbcWriter.writeBlocks: as many whole
16-byte blocks as the plaintext holds. -/
def aesCipherOf (crypt : Bytes → Bytes) (plaintext : Bytes) : Bytes :=
  crypt (plaintext.take (plaintext.length / 16 * 16))

/-- aesCbcWriter.writeBlocks: encrypt the whole blocks and write them
downstream, returning the downstream count and error. -/
def aesWriteBlocks (crypt : Bytes → Bytes) (W : WriteFn δ) (d : δ)
    (plaintext : Bytes) : Option (δ × Nat × Option GoErr) :=
  W d (aesCipherOf crypt plaintext)

/-- The tail of aesCbcWriter.Write after the buffered-block branch: write
whole blocks from p, then buffer any remainder, adding its length to n. -/
def aesWriteRest (crypt : Bytes → Bytes) (W : WriteFn δ) (a : AesCbcWriter)
    (d : δ) (p : Bytes) (n : Nat) :
    Option ((AesCbcWriter × δ) × Nat × Option GoErr) :=
  match aesWriteBlocks crypt W d p with
  | none => none
  | some (d1, n2, err) =>
    if p.length > n2 then
      let remainder := p.drop n2
      some (({ a with buffer := a.buffer ++ remainder }, d1),
            n + n2 + remainder.length, err)
    else
      some ((a, d1), n + n2, err)

/-- aesCbcWriter.Write. When a buffered partial block exists, bytes are
peeled off p to fill it; n is increased by those bytes only when the
block becomes full (the faithful rendering of the source). -/
def aesWrite (crypt : Bytes → Bytes) (W : WriteFn δ) :
    WriteFn (AesCbcWriter × δ) := fun ad p =>
  let a := ad.1
  let d := ad.2
  if a.closed then some ((a, d), 0, some GoErr.aesClosed)
  else
    if a.buffer.length > 0 then
      let x0 := 16 - a.buffer.length
      let x := if x0 > p.length then p.length else x0
      let buf := a.buffer ++ p.take x
      let p1 := p.drop x
      if buf.length = 16 then
        match aesWriteBlocks crypt W d buf with
        | none => none
        | some (d1, _, some e) => some (({ a with buffer := [] }, d1), x, some e)
        | some (d1, _, none) =>
          aesWriteRest crypt W { a with buffer := [] } d1 p1 x
      else
        aesWriteRest crypt W { a with buffer := buf } d p1 0
    else
      aesWriteRest crypt W a d p 0

/-- The PKCS#7-padded final block built by aesCbcWriter.Close: the buffer
extended to 16 bytes with the padding byte 16 - len(buffer). -/
def aesPaddedBuffer (a : AesCbcWriter) : Bytes :=
  a.buffer ++ List.replicate (16 - a.buffer.length) (16 - a.buffer.length)

/-- aesCbcWriter.Close: pad the buffer to a whole block, encrypt and write
it, and mark the writer closed (cbc = nil) only on success. -/
def aesClose (crypt : Bytes → Bytes) (W : WriteFn δ) (a : AesCbcWriter)
    (d : δ) : Option ((AesCbcWriter × δ) × Option GoErr) :=
  if a.closed then some ((a, d), some GoErr.aesClosed)
  else
    let buf := aesPaddedBuffer a
    match aesWriteBlocks crypt W d buf with
    | none => none
    | some (d1, _, some e) => some (({ a with buffer := buf }, d1), some e)
    | some (d1, _, none) =>
      some (({ a with buffer := buf, closed := true }, d1), none)

/-! ### gzip compressor (C5 of the spec)

Modelled from the spec: section 4.5 requires a standard gzip (RFC 1952)
stream at best compression whose close flushes without closing the
downstream; the deflate body is produced by the external pgzip library and
enters as the parameter deflate. The model buffers all input and emits
the complete stream (10-byte header, deflate body, CRC32 and length
trailer) on close; only the framing and total byte count are contractual. -/

def le32 (n : Nat) : Bytes :=
  [n % 256, n / 256 % 256, n / 65536 % 256, n / 16777216 % 256]

def crc32step (c : Nat) : Nat :=
  if c % 2 = 1 then Nat.xor (c / 2) 0xEDB88320 else c / 2

def crc32byte (c b : Nat) : Nat :=
  crc32step (crc32step (crc32step (crc32step
    (crc32step (crc32step (crc32step (crc32step (Nat.xor c (b % 256)))))))))

def crc32 (d : Bytes) : Nat :=
  Nat.xor (d.foldl crc32byte 0xFFFFFFFF) 0xFFFFFFFF

/-- Modelled from the spec: an RFC 1951 deflate encoder using stored
(uncompressed) blocks, used to instantiate the deflate parameter on
concrete runs. Each block carries a 1-byte final/type marker and the
2-byte length plus its complement. The fuel argument is structural
recursion bookkeeping only; storedDeflate supplies enough. -/
def storedDeflateAux : Nat → Bytes → Bytes
  | _, [] => [1, 0, 0, 255, 255]
  | 0, d =>
    1 :: d.length % 256 :: d.length / 256 % 256 ::
      (65535 - d.length) % 256 :: (65535 - d.length) / 256 :: d
  | fuel + 1, d =>
    if d.length ≤ 65535 then
      1 :: d.length % 256 :: d.length / 256 % 256 ::
        (65535 - d.length) % 256 :: (65535 - d.length) / 256 :: d
    else
      0 :: 255 :: 255 :: 0 :: 0 ::
        (d.take 65535 ++ storedDeflateAux fuel (d.drop 65535))

def storedDeflate (d : Bytes) : Bytes := storedDeflateAux d.length d

/-- RFC 1952 member header: magic, deflate method, no flags, zero mtime,
XFL 2 (best compression), unknown OS. -/
def gzipHeaderBytes : Bytes := [31, 139, 8, 0, 0, 0, 0, 0, 2, 255]

/-- The full RFC 1952 stream for input d with a given deflate body. -/
def gzipStream (deflate : Bytes → Bytes) (d : Bytes) : Bytes :=
  gzipHeaderBytes ++ deflate d ++ le32 (crc32 d) ++ le32 (d.length % 4294967296)

structure GzipWriter where
  buffer : Bytes
  closed : Bool
  deriving DecidableEq, Repr

def newGzipWriter : GzipWriter := { buffer := [], closed := false }

/-- gzip Write: buffer the plaintext. -/
def gzWrite (gz : GzipWriter) (p : Bytes) : GzipWriter × Nat × Option GoErr :=
  if gz.closed then (gz, 0, some GoErr.gzipClosed)
  else ({ gz with buffer := gz.buffer ++ p }, p.length, none)

/-- gzip Close: emit the complete RFC 1952 stream downstream (without
closing the downstream) and mark the stream closed. -/
def gzClose (deflate : Bytes → Bytes) (W : WriteFn δ) (gz : GzipWriter)
    (d : δ) : Option ((GzipWriter × δ) × Option GoErr) :=
  if gz.closed then some ((gz, d), some GoErr.gzipClosed)
  else
    match W d (gzipStream deflate gz.buffer) with
    | none => none
    | some (d1, _, err) => some (({ gz with closed := true }, d1), err)

/-! ### tar framer (C6 of the spec)

Modelled from the spec: section 4.6 requires a single USTAR header block
for a regular file owned by root:root, the payload verbatim, then padding
of the payload to a 512-byte boundary and two 512-byte zero blocks on
close, without closing the downstream. The stdlib archive/tar behaviour
of refusing writes beyond the declared size and refusing to close while
declared bytes are missing is included. Field overflow (a name longer
than 100 bytes, a size at or above 8^11) is not modelled; the header
block is forced to exactly 512 bytes. -/

structure TarHeader where
  name : String
  mode : Nat
  uid : Nat
  gid : Nat
  uname : String
  gname : String
  size : Nat
  mtime : Nat
  typeflag : Nat
  deriving DecidableEq, Repr

/-- UTF-8 encoding of one code point (Go strings are UTF-8 byte slices). -/
def utf8Bytes (c : Nat) : Bytes :=
  if c < 0x80 then [c]
  else if c < 0x800 then [0xC0 + c / 64, 0x80 + c % 64]
  else if c < 0x10000 then [0xE0 + c / 4096, 0x80 + c / 64 % 64, 0x80 + c % 64]
  else [0xF0 + c / 262144, 0x80 + c / 4096 % 64, 0x80 + c / 64 % 64, 0x80 + c % 64]

/-- The bytes of a Go string. -/
def strBytes (s : String) : Bytes :=
  (s.data.map (fun ch => utf8Bytes ch.toNat)).flatten

def padZeros (l : Bytes) (n : Nat) : Bytes := l ++ List.replicate (n - l.length) 0

/-- A numeric tar header field: zero-padded octal digits followed by NUL,
total width w. -/
def numField (n w : Nat) : Bytes :=
  let ds := (Nat.toDigits 8 n).map Char.toNat
  List.replicate (w - 1 - ds.length) 48 ++ ds ++ [0]

/-- The 512-byte USTAR header block. The checksum field holds the byte sum
of the block with the checksum field itself read as eight spaces. -/
def tarHeaderBytes (h : TarHeader) : Bytes :=
  let pre := padZeros (strBytes h.name) 100 ++ numField h.mode 8 ++
    numField h.uid 8 ++ numField h.gid 8 ++ numField h.size 12 ++
    numField h.mtime 12
  let post := h.typeflag :: (List.replicate 100 0 ++ strBytes "ustar" ++ [0] ++
    strBytes "00" ++ padZeros (strBytes h.uname) 32 ++
    padZeros (strBytes h.gname) 32 ++ List.replicate 8 0 ++
    List.replicate 8 0 ++ List.replicate 155 0 ++ List.replicate 12 0)
  let chk := pre.foldl (· + ·) 0 + 8 * 32 + post.foldl (· + ·) 0
  let raw := pre ++ (numField chk 7 ++ [32]) ++ post
  (raw ++ List.replicate (512 - raw.length) 0).take 512

structure TarWriter where
  lastHeader : Option TarHeader
  remaining : Nat
  pad : Nat
  deriving DecidableEq, Repr

def newTarWriter : TarWriter := { lastHeader := none, remaining := 0, pad := 0 }

/-- tar.Writer.WriteHeader: emit the 512-byte header block and start a new
entry of the declared size, recording the padding the entry will need. -/
def tarWriteHeader (W : WriteFn δ) (tw : TarWriter) (d : δ) (h : TarHeader) :
    Option ((TarWriter × δ) × Option GoErr) :=
  match W d (tarHeaderBytes h) with
  | none => none
  | some (d1, _, some e) => some ((tw, d1), some e)
  | some (d1, _, none) =>
    some (({ lastHeader := some h, remaining := h.size,
             pad := (512 - h.size % 512) % 512 }, d1), none)

/-- tar.Writer.Write: pass payload through verbatim, refusing bytes beyond
the declared size. -/
def tarWrite (W : WriteFn δ) (tw : TarWriter) (d : δ) :
    Bytes → Option ((TarWriter × δ) × Nat × Option GoErr) := fun p =>
  match tw.lastHeader with
  | none => some ((tw, d), 0, some GoErr.tarWriteTooLong)
  | some _ =>
    let overwrite := decide (p.length > tw.remaining)
    let p1 := if overwrite then p.take tw.remaining else p
    match W d p1 with
    | none => none
    | some (d1, n, some e) =>
      some (({ tw with remaining := tw.remaining - n }, d1), n, some e)
    | some (d1, n, none) =>
      if overwrite then
        some (({ tw with remaining := tw.remaining - n }, d1), n,
              some GoErr.tarWriteTooLong)
      else
        some (({ tw with remaining := tw.remaining - n }, d1), n, none)

/-- tar.Writer.Flush: refuse if declared bytes are missing, otherwise emit
the padding of the current entry. -/
def tarFlush (W : WriteFn δ) (tw : TarWriter) (d : δ) :
    Option ((TarWriter × δ) × Option GoErr) :=
  if tw.remaining > 0 then some ((tw, d), some (GoErr.tarMissedBytes tw.remaining))
  else
    match W d (List.replicate tw.pad 0) with
    | none => none
    | some (d1, _, err) => some (({ tw with pad := 0 }, d1), err)

/-- tar.Writer.Close: flush the current entry, then emit the two 512-byte
zero trailer blocks. The downstream is not closed. -/
def tarClose (W : WriteFn δ) (tw : TarWriter) (d : δ) :
    Option ((TarWriter × δ) × Option GoErr) :=
  match tarFlush W tw d with
  | none => none
  | some ((tw1, d1), some e) => some ((tw1, d1), some e)
  | some ((tw1, d1), none) =>
    match W d1 (List.replicate 1024 0) with
    | none => none
    | some (d2, _, err) => some ((tw1, d2), err)

/-! ### The io.MultiWriter tee of NewWriter

Writes go first to the SHA-1 hash (modelled as the accumulated hash input
stream, which never fails) and then to the gzip writer. -/

def teeWrite : WriteFn (Bytes × GzipWriter) := fun shgz p =>
  let sh1 := shgz.1 ++ p
  match gzWrite shgz.2 p with
  | (gz1, n, some e) => some ((sh1, gz1), n, some e)
  | (gz1, _, none) => some ((sh1, gz1), p.length, none)

/-! ### aws_bundle.Writer (source: NewWriter / doInitialWrite / Write /
Close / populateManifest)

The random 16-byte key and IV of NewWriter parameterize the pipeline only
through the CBC transformation crypt; the wall clock read by
doInitialWrite enters as the parameter mtime. -/

/-- The external parameters of one bundling: the CBC encryption of whole
blocks under the random key and IV, the deflate body encoder, and the
wall-clock time stamped into the tar header. -/
structure Params where
  crypt : Bytes → Bytes
  deflate : Bytes → Bytes
  mtime : Nat

/-- The state below the gzip stage: the bundledSize countingWriter over
the chunkWriter over the hashingSink. -/
abbrev Low (σ : Type) := Nat × (ChunkWriter × HashingSink σ)

def lowWrite (S : SinkM σ) : WriteFn (Low σ) :=
  countingWrite (cwWrite (hashingSinkM S))

def aesLowWrite (crypt : Bytes → Bytes) (S : SinkM σ) :
    WriteFn (AesCbcWriter × Low σ) :=
  aesWrite crypt (lowWrite S)

structure BundleWriter (σ : Type) where
  basename : String
  size : Nat
  trueSize : Nat
  tar : TarWriter
  sha1Input : Bytes
  gz : GzipWriter
  aes : AesCbcWriter
  bundledSize : Nat
  cw : ChunkWriter
  hs : HashingSink σ
  didInitialWrite : Bool
  closed : Bool

/-- NewWriter: assemble the pipeline bottom-up. The 10 MiB chunk size is
fixed; key and IV generation is absorbed into the crypt parameter. -/
def bwNew (basename : String) (size : Nat) (s0 : σ) : BundleWriter σ :=
  { basename := basename, size := size, trueSize := 0,
    tar := newTarWriter, sha1Input := [], gz := newGzipWriter,
    aes := newAesCbcWriter, bundledSize := 0,
    cw := newChunkWriter basename (10 * 1024 * 1024),
    hs := newHashingSink s0,
    didInitialWrite := false, closed := false }

/-- The tar header built by Writer.doInitialWrite. -/
def initialHeader (basename : String) (size : Nat) (mtime : Nat) : TarHeader :=
  { name := basename, mode := 0o644, uid := 0, gid := 0,
    uname := "root", gname := "root", size := size, mtime := mtime,
    typeflag := 0x30 }

/-- Writer.doInitialWrite: emit the tar header and set didInitialWrite on
success. -/
def bwDoInitialWrite (P : Params) (bw : BundleWriter σ) :
    Option (BundleWriter σ × Option GoErr) :=
  match tarWriteHeader teeWrite bw.tar (bw.sha1Input, bw.gz)
      (initialHeader bw.basename bw.size P.mtime) with
  | none => none
  | some ((tw1, shgz), some e) =>
    some ({ bw with tar := tw1, sha1Input := shgz.1, gz := shgz.2 }, some e)
  | some ((tw1, shgz), none) =>
    some ({ bw with
            tar := tw1, sha1Input := shgz.1, gz := shgz.2,
            didInitialWrite := true }, none)

/-- Writer.Write: on the first call emit the tar header, then feed the
bytes through the trueSize counter into the tar writer and the tee. -/
def bwWrite (P : Params) (bw : BundleWriter σ) (p : Bytes) :
    Option (BundleWriter σ × Nat × Option GoErr) :=
  match (if bw.didInitialWrite then some (bw, none) else bwDoInitialWrite P bw) with
  | none => none
  | some (bw1, some e) => some (bw1, 0, some e)
  | some (bw1, none) =>
    match tarWrite teeWrite bw1.tar (bw1.sha1Input, bw1.gz) p with
    | none => none
    | some ((tw1, shgz), n, err) =>
      some ({ bw1 with
              tar := tw1, sha1Input := shgz.1, gz := shgz.2,
              trueSize := bw1.trueSize + n }, n, err)

inductive Stage where
  | tarS
  | gzS
  | aesS
  | cwS
  deriving DecidableEq, Repr

/-- The outcome of Writer.Close. ret is the value Close returns; errs is
the errors slice the source collects, in collection order; trace records,
in order, the pipeline stages whose Close was invoked. -/
structure CloseResult (σ : Type) where
  bw : BundleWriter σ
  ret : Option GoErr
  errs : List GoErr
  trace : List Stage

/-- Writer.Close: refuse a second close; otherwise close the tar framer,
the gzip stream, the AES writer and the chunk writer in that order,
attempting every stage, collect the errors, verify the declared size,
mark the writer closed and return the first collected error. -/
def bwClose (P : Params) (S : SinkM σ) (bw : BundleWriter σ) :
    Option (CloseResult σ) :=
  if bw.closed then some ⟨bw, some GoErr.writerClosed, [], []⟩
  else
    match tarClose teeWrite bw.tar (bw.sha1Input, bw.gz) with
    | none => none
    | some ((tw1, shgz1), tarErr) =>
      match gzClose P.deflate (aesLowWrite P.crypt S) shgz1.2
          (bw.aes, (bw.bundledSize, (bw.cw, bw.hs))) with
      | none => none
      | some ((gz2, aeslow), gzErr) =>
        match aesClose P.crypt (lowWrite S) aeslow.1 aeslow.2 with
        | none => none
        | some ((aes2, low2), aesErr) =>
          let cwr := cwClose (hashingSinkM S) low2.2.1 low2.2.2
          let sizeErr := if bw.size = bw.trueSize then none
            else some (GoErr.sizeMismatch bw.size bw.trueSize)
          let errs := [tarErr, gzErr, aesErr, cwr.2, sizeErr].filterMap id
          some ⟨{ bw with
                  tar := tw1, sha1Input := shgz1.1, gz := gz2,
                  aes := aes2, bundledSize := low2.1, cw := cwr.1.1,
                  hs := cwr.1.2, closed := true },
                errs.head?, errs, [Stage.tarS, Stage.gzS, Stage.aesS, Stage.cwS]⟩

/-- A caller loop issuing one Write per element, stopping on the first
error. -/
def bwWriteAll (P : Params) : BundleWriter σ → List Bytes →
    Option (BundleWriter σ × Option GoErr)
  | bw, [] => some (bw, none)
  | bw, p :: rest =>
    match bwWrite P bw p with
    | none => none
    | some (bw1, _, some e) => some (bw1, some e)
    | some (bw1, _, none) => bwWriteAll P bw1 rest

/-- One full bundling: construct the writer, issue the writes, close. A
run whose write phase errors is not pursued further. -/
def runBundle (P : Params) (S : SinkM σ) (basename : String) (size : Nat)
    (s0 : σ) (writes : List Bytes) : Option (CloseResult σ) :=
  match bwWriteAll P (bwNew basename size s0) writes with
  | none => none
  | some (_, some _) => none
  | some (bw1, none) => bwClose P S bw1

/-! ### Manifest (source: manifest.go, metadata.toManifest,
Writer.populateManifest, manifest.EncryptSecrets)

Digest values are represented by the byte stream hashed (see the
conventions); hex-encoded values are represented as their ASCII bytes.
The XML serialization and RSA signature of SignAndMarshal are outside the
claims and are not modelled. -/

structure ManifestPart where
  index : Nat
  filename : String
  digestAlgorithm : String
  digestInput : Bytes
  deriving DecidableEq, Repr

structure ValueAndAlgorithm where
  algorithm : String
  value : Bytes
  deriving DecidableEq, Repr

structure ManifestImage where
  name : String
  user : String
  typ : String
  digestAlgorithm : String
  digestInput : Bytes
  size : Nat
  bundledSize : Nat
  ec2EncryptedKey : ValueAndAlgorithm
  userEncryptedKey : ValueAndAlgorithm
  ec2EncryptedIV : Bytes
  userEncryptedIV : Bytes
  partsCount : Nat
  parts : List ManifestPart
  deriving DecidableEq, Repr

structure Application where
  name : String
  version : String
  release : String
  comment : String
  deriving DecidableEq, Repr

structure Manifest where
  bundler : Application
  architecture : String
  image : ManifestImage
  deriving DecidableEq, Repr

structure Metadata where
  name : String
  architecture : String
  awsAccountID : String
  awsRegion : String
  typ : String
  bundler : Application
  deriving DecidableEq, Repr

/-- Metadata.toManifest: copy the metadata into the manifest skeleton and
default the image type to machine. -/
def toManifest (md : Metadata) : Manifest :=
  { bundler := md.bundler,
    architecture := md.architecture,
    image := {
      name := md.name,
      user := md.awsAccountID,
      typ := if md.typ = "" then "machine" else md.typ,
      digestAlgorithm := "", digestInput := [],
      size := 0, bundledSize := 0,
      ec2EncryptedKey := ⟨"", []⟩, userEncryptedKey := ⟨"", []⟩,
      ec2EncryptedIV := [], userEncryptedIV := [],
      partsCount := 0, parts := [] } }

/-- Writer.populateManifest: record the image digest (algorithm SHA1 over
the stream fed to bw.sha1), the sizes, and one part per hashing-sink
record with its position as index. -/
def populateManifest (bw : BundleWriter σ) (m : Manifest) : Manifest :=
  { m with image := { m.image with
      digestAlgorithm := "SHA1",
      digestInput := bw.sha1Input,
      size := bw.trueSize,
      bundledSize := bw.bundledSize,
      parts := m.image.parts ++ bw.hs.files.enum.map (fun f =>
        { index := f.1, filename := f.2.1,
          digestAlgorithm := "SHA1", digestInput := f.2.2 }),
      partsCount := bw.hs.files.length } }

/-! ### EncryptSecrets (source: manifest.go) and the certificate registry
(source: certificates.go)

The three embedded X.509 certificates are distinguished by tag; PEM and
DER parsing are not modelled (the registry claim is only about which
certificate a region selects). RSA PKCS#1 v1.5 encryption with a random
reader is an external primitive and enters as the parameter rsaEncrypt,
keyed by the public key used. -/

inductive EC2Cert where
  | ec2
  | gov
  | cnNorth
  deriving DecidableEq, Repr

/-- CertificateForEC2Region: the region switch of the source. -/
def certificateForEC2Region (region : String) : EC2Cert :=
  if region = "us-gov-west-1" then EC2Cert.gov
  else if region = "cn-north-1" then EC2Cert.cnNorth
  else EC2Cert.ec2

inductive RsaKeyId where
  | ec2Cert (c : EC2Cert)
  | userKey
  deriving DecidableEq, Repr

/-- One byte as two lowercase hexadecimal ASCII characters, as the Go
format verb x prints a byte slice. -/
def hexDigit (n : Nat) : Nat := if n < 10 then 48 + n else 87 + n

def hexBytes : Bytes → Bytes
  | [] => []
  | b :: rest => hexDigit (b / 16) :: hexDigit (b % 16) :: hexBytes rest

def isLowerHexAscii (b : Nat) : Bool :=
  (48 ≤ b && b ≤ 57) || (97 ≤ b && b ≤ 102)

/-- manifest.EncryptSecrets: resolve the region certificate, hex-encode
the raw key and IV, RSA-encrypt the hex ASCII under the EC2 key and the
user key, and store each ciphertext hex-encoded; the key fields carry the
AES-128-CBC algorithm attribute, the IV fields are bare. -/
def encryptSecrets (rsaEncrypt : RsaKeyId → Bytes → Bytes) (m : Manifest)
    (key iv : Bytes) (region : String) : Manifest :=
  let ec2key := RsaKeyId.ec2Cert (certificateForEC2Region region)
  let encodedKey := hexBytes key
  let encodedIV := hexBytes iv
  { m with image := { m.image with
      ec2EncryptedKey :=
        ⟨"AES-128-CBC", hexBytes (rsaEncrypt ec2key encodedKey)⟩,
      userEncryptedKey :=
        ⟨"AES-128-CBC", hexBytes (rsaEncrypt RsaKeyId.userKey encodedKey)⟩,
      ec2EncryptedIV := hexBytes (rsaEncrypt ec2key encodedIV),
      userEncryptedIV := hexBytes (rsaEncrypt RsaKeyId.userKey encodedIV) } }

/-! ### Concrete sinks for the theorems -/

/-- The accumulating sink of the test suite: every file is an in-memory
buffer; writes always succeed in full. -/
abbrev AccState := List (String × Bytes)

def accSinkM : SinkM AccState where
  openFile s name := (s ++ [(name, [])], none)
  writeFile s name p := (updateBytes s name p, p.length, none)
  closeFile s _ := (s, none)

/-- A sink whose WriteBundleFile always fails. -/
def failOpenSinkM : SinkM Unit where
  openFile s name := (s, some (GoErr.sinkOpen name))
  writeFile s _ p := (s, p.length, none)
  closeFile s _ := (s, none)

/-- An accumulating sink whose Close always fails. -/
def failCloseSinkM : SinkM AccState where
  openFile s name := (s ++ [(name, [])], none)
  writeFile s name p := (updateBytes s name p, p.length, none)
  closeFile s _ := (s, some GoErr.sinkClose)

/-- A sink with the behaviour of the accumulating test sink: opens and
closes never fail and every write is accepted in full. -/
structure PerfectSink (S : SinkM σ) : Prop where
  op : ∀ s name, (S.openFile s name).2 = none
  wr : ∀ s name p, (S.writeFile s name p).2.1 = p.length ∧
    (S.writeFile s name p).2.2 = none
  cl : ∀ s name, (S.closeFile s name).2 = none

/-- The byte stream the tar framer emits over the life of a bundling whose
caller supplies the given payload: header block, payload, end-of-entry
padding, two zero trailer blocks. -/
def tarStreamOf (basename : String) (size mtime : Nat) (payload : Bytes) : Bytes :=
  tarHeaderBytes (initialHeader basename size mtime) ++ payload ++
    List.replicate ((512 - size % 512) % 512) 0 ++ List.replicate 1024 0

/-- A trivially well-behaved downstream writer collecting all bytes,
used to exercise the AES writer in isolation. -/
def collectW : WriteFn Bytes := fun d p => some (d ++ p, p.length, none)

/-- Concrete parameters for counterexample runs: identity block cipher
(length-preserving like the real CBC mode) and the stored-block deflate. -/
def cxParams : Params := { crypt := id, deflate := storedDeflate, mtime := 0 }

/-- Concrete parameters with an identity deflate body, for runs where only
close semantics are observed. -/
def idParams : Params := { crypt := id, deflate := id, mtime := 0 }

/-! ## Basic facts about the embedded definitions -/

lemma length_tarHeaderBytes (h : TarHeader) : (tarHeaderBytes h).length = 512 := by
  simp only [tarHeaderBytes, List.length_take, List.length_append,
    List.length_replicate]
  omega

lemma length_gzipStream (f : Bytes → Bytes) (d : Bytes) :
    (gzipStream f d).length = 18 + (f d).length := by
  simp only [gzipStream, gzipHeaderBytes, le32, List.length_append,
    List.length_cons, List.length_nil]
  omega

lemma length_hexBytes (l : Bytes) : (hexBytes l).length = 2 * l.length := by
  induction l with
  | nil => rfl
  | cons b rest ih =>
    simp only [hexBytes, List.length_cons, ih]
    omega

lemma hexBytes_lowerHex (l : Bytes) (hl : ∀ b ∈ l, b < 256) :
    ∀ c ∈ hexBytes l, isLowerHexAscii c = true := by
  induction l with
  | nil => simp [hexBytes]
  | cons b rest ih =>
    intro c hc
    have hb : b < 256 := hl b (by simp)
    simp only [hexBytes, List.mem_cons] at hc
    rcases hc with hc | hc | hc
    · subst hc
      have : b / 16 < 16 := by omega
      simp only [hexDigit, isLowerHexAscii]
      split <;> [skip; skip] <;> simp <;> omega
    · subst hc
      have : b % 16 < 16 := by omega
      simp only [hexDigit, isLowerHexAscii]
      split <;> [skip; skip] <;> simp <;> omega
    · exact ih (fun x hx => hl x (by simp [hx])) c hc

/-! ## The write phase of a bundling

Until Close is called nothing reaches the gzip downstream: the tar bytes
accumulate in the SHA-1 input stream and the gzip buffer. -/

lemma bwWrite_first {σ : Type} (P : Params) (bw : BundleWriter σ) (p : Bytes)
    (hDI : bw.didInitialWrite = false) (hgz : bw.gz.closed = false)
    (hp : p.length ≤ bw.size) :
    bwWrite P bw p = some ({ bw with
        tar := ⟨some (initialHeader bw.basename bw.size P.mtime),
               bw.size - p.length, (512 - bw.size % 512) % 512⟩,
        sha1Input := bw.sha1Input ++
          (tarHeaderBytes (initialHeader bw.basename bw.size P.mtime) ++ p),
        gz := ⟨bw.gz.buffer ++
          (tarHeaderBytes (initialHeader bw.basename bw.size P.mtime) ++ p),
          false⟩,
        trueSize := bw.trueSize + p.length,
        didInitialWrite := true }, p.length, none) := by
  have hnlt : ¬ (p.length > bw.size) := by omega
  simp [bwWrite, bwDoInitialWrite, tarWriteHeader, teeWrite, gzWrite, tarWrite,
    initialHeader, hDI, hgz, hnlt, List.append_assoc]

lemma bwWrite_step {σ : Type} (P : Params) (bw : BundleWriter σ) (p : Bytes)
    (h : TarHeader)
    (hDI : bw.didInitialWrite = true) (hgz : bw.gz.closed = false)
    (hLH : bw.tar.lastHeader = some h) (hp : p.length ≤ bw.tar.remaining) :
    bwWrite P bw p = some ({ bw with
        tar := { bw.tar with remaining := bw.tar.remaining - p.length },
        sha1Input := bw.sha1Input ++ p,
        gz := ⟨bw.gz.buffer ++ p, false⟩,
        trueSize := bw.trueSize + p.length }, p.length, none) := by
  have hnlt : ¬ (p.length > bw.tar.remaining) := by omega
  simp [bwWrite, tarWrite, teeWrite, gzWrite, hDI, hgz, hLH, hnlt]

lemma cwWriteLoop_failOpen :
    ∀ (fuel : Nat) (cw : ChunkWriter) (s : Unit) (p : Bytes) (n : Nat),
      cw.curOpen = false → p ≠ [] →
      cwWriteLoop failOpenSinkM fuel cw s p n = none := by
  intro fuel
  induction fuel with
  | zero => intro cw s p n _ _; rfl
  | succ f ih =>
    intro cw s p n hcw hp
    have hlen : ¬ p.length = 0 := by simpa using hp
    have hbr : bytesRemainingInChunk cw = 0 := by
      simp [bytesRemainingInChunk, hcw]
    have hnc : cwNewChunk failOpenSinkM cw s =
        (({ cw with
            curFilename := cw.name ++ ".part." ++ toString cw.curIndex,
            curIndex := cw.curIndex + 1, curOffset := 0 }, s),
          some (GoErr.sinkOpen (cw.name ++ ".part." ++ toString cw.curIndex))) := by
      simp [cwNewChunk, cwCloseChunk, failOpenSinkM, hcw]
    simp only [cwWriteLoop, hlen, if_false, hbr, if_true, hnc]
    exact ih _ _ _ _ (by simp [hcw]) hp

/-- Claim C3 (code bug). The spec says a sink error from opening the next
part file is returned immediately and Write terminates. In the source the
loop discards the error newChunk returns (first conjunct second part shows
newChunk does produce it) and retries forever: against a sink whose opens
fail, Write runs out of any amount of fuel, i.e. never returns. -/
theorem chunk_write_swallows_open_error :
    (∀ fuel : Nat,
      cwWriteLoop failOpenSinkM fuel (newChunkWriter "img" (10 * 1024 * 1024))
        () [0] 0 = none) ∧
    (cwNewChunk failOpenSinkM (newChunkWriter "img" (10 * 1024 * 1024)) ()).2 =
      some (GoErr.sinkOpen "img.part.0") := by
  constructor
  · intro fuel
    exact cwWriteLoop_failOpen fuel _ () [0] 0 rfl (by simp)
  · decide

/-- Claim C2 (code bug). A Write on the open AES writer whose bytes only
extend a buffered partial block without completing it consumes the bytes
(they land in the buffer) but returns n = 0 with a nil error instead of
n = len(p): here a 1-byte write following a 1-byte write returns 0. -/
theorem aes_write_partial_block_count_bug :
    aesWrite id collectW (newAesCbcWriter, ([] : Bytes)) [7] =
      some (({ buffer := [7], closed := false }, []), 1, none) ∧
    aesWrite id collectW ({ buffer := [7], closed := false }, ([] : Bytes)) [9] =
      some (({ buffer := [7, 9], closed := false }, []), 0, none) := by
  constructor <;> decide

/-- Claim C10 (confirmed). Closing a file of the hashing sink appends the
(filename, digest) record — here the digest is represented by the hashed
byte stream — to the ordered list, and the record is present even when
the underlying close errors; the underlying state and error are exactly
those of the delegated close. -/
theorem hashing_close_appends_record_first :
    (∀ (σ : Type) (S : SinkM σ) (hs : HashingSink σ) (name : String),
      ((hashingSinkM S).closeFile hs name).1.files =
        hs.files ++ [(name, lookupBytes hs.writers name)] ∧
      ((hashingSinkM S).closeFile hs name).1.s = (S.closeFile hs.s name).1 ∧
      ((hashingSinkM S).closeFile hs name).2 = (S.closeFile hs.s name).2) ∧
    (((hashingSinkM failCloseSinkM).closeFile
        ⟨[("f", [1])], [], [("f", [1])]⟩ "f").2 = some GoErr.sinkClose ∧
      ((hashingSinkM failCloseSinkM).closeFile
        ⟨[("f", [1])], [], [("f", [1])]⟩ "f").1.files = [("f", [1])]) := by
  refine ⟨fun σ S hs name => ?_, by decide, by decide⟩
  rcases h : S.closeFile hs.s name with ⟨s1, err⟩
  simp [hashingSinkM, h]

/-- Claim C7 (confirmed). EncryptSecrets hands the RSA primitive — for
both the region EC2 key and the user key — the 32-character lowercase
hexadecimal ASCII encoding of the 16 raw key and IV bytes, not the raw
bytes (the hex encoding differs from every 16-byte input), and stores
each resulting ciphertext hex-encoded in lowercase ASCII. -/
theorem encrypt_secrets_hex_before_rsa :
    ∀ (f : RsaKeyId → Bytes → Bytes) (m : Manifest) (key iv : Bytes)
      (region : String),
      key.length = 16 → iv.length = 16 →
      (∀ b ∈ key, b < 256) → (∀ b ∈ iv, b < 256) →
      (∀ k p, ∀ b ∈ f k p, b < 256) →
      ((encryptSecrets f m key iv region).image.ec2EncryptedKey =
        ⟨"AES-128-CBC",
          hexBytes (f (RsaKeyId.ec2Cert (certificateForEC2Region region))
            (hexBytes key))⟩ ∧
      (encryptSecrets f m key iv region).image.userEncryptedKey =
        ⟨"AES-128-CBC", hexBytes (f RsaKeyId.userKey (hexBytes key))⟩ ∧
      (encryptSecrets f m key iv region).image.ec2EncryptedIV =
        hexBytes (f (RsaKeyId.ec2Cert (certificateForEC2Region region))
          (hexBytes iv)) ∧
      (encryptSecrets f m key iv region).image.userEncryptedIV =
        hexBytes (f RsaKeyId.userKey (hexBytes iv))) ∧
      ((hexBytes key).length = 32 ∧ (hexBytes iv).length = 32 ∧
      hexBytes key ≠ key ∧ hexBytes iv ≠ iv ∧
      (∀ c ∈ hexBytes key, isLowerHexAscii c = true) ∧
      (∀ c ∈ hexBytes iv, isLowerHexAscii c = true)) ∧
      (∀ c ∈ (encryptSecrets f m key iv region).image.ec2EncryptedKey.value,
        isLowerHexAscii c = true) ∧
      (∀ c ∈ (encryptSecrets f m key iv region).image.userEncryptedKey.value,
        isLowerHexAscii c = true) ∧
      (∀ c ∈ (encryptSecrets f m key iv region).image.ec2EncryptedIV,
        isLowerHexAscii c = true) ∧
      (∀ c ∈ (encryptSecrets f m key iv region).image.userEncryptedIV,
        isLowerHexAscii c = true) := by
  intro f m key iv region hk hi hkb hib hfb
  have hne : ∀ l : Bytes, l.length = 16 → hexBytes l ≠ l := by
    intro l hl heq
    have := congrArg List.length heq
    rw [length_hexBytes, hl] at this
    omega
  refine ⟨⟨by simp [encryptSecrets], by simp [encryptSecrets],
    by simp [encryptSecrets], by simp [encryptSecrets]⟩,
    ⟨by rw [length_hexBytes, hk], by rw [length_hexBytes, hi],
      hne key hk, hne iv hi,
      hexBytes_lowerHex key hkb, hexBytes_lowerHex iv hib⟩,
    ?_, ?_, ?_, ?_⟩ <;>
    · simp only [encryptSecrets]
      exact hexBytes_lowerHex _ (hfb _ _)

/-- Witness for C7 at a concrete key, IV, region and RSA stand-in. -/
theorem encrypt_secrets_hex_before_rsa_witness :
    (hexBytes (List.replicate 16 0)).length = 32 ∧
    hexBytes (List.replicate 16 0) ≠ List.replicate 16 0 :=
  have h := encrypt_secrets_hex_before_rsa (fun _ _ => []) (toManifest
      ⟨"n", "x86_64", "1", "us-east-1", "", ⟨"a", "b", "c", ""⟩⟩)
    (List.replicate 16 0) (List.replicate 16 0) "us-east-1"
    (by decide) (by decide) (by decide) (by decide)
    (by intro k p b hb; simp at hb)
  ⟨h.2.1.1, h.2.1.2.2.1⟩

/-! ## The close phase over a well-behaved sink -/

lemma perfect_accSinkM : PerfectSink accSinkM := by
  constructor <;> intro s name <;> simp [accSinkM]

lemma perfect_hashingSinkM {σ : Type} {S : SinkM σ} (hS : PerfectSink S) :
    PerfectSink (hashingSinkM S) := by
  constructor
  · intro hs name
    have h := hS.op hs.s name
    rcases ho : S.openFile hs.s name with ⟨s1, e⟩
    rw [ho] at h
    subst h
    simp [hashingSinkM, ho]
  · intro hs name p
    have h := hS.wr hs.s name p
    rcases hw : S.writeFile hs.s name p with ⟨s1, n1, e1⟩
    rw [hw] at h
    simp at h
    simp [hashingSinkM, hw, h.1, h.2]
  · intro hs name
    have h := hS.cl hs.s name
    rcases hc : S.closeFile hs.s name with ⟨s1, e⟩
    rw [hc] at h
    subst h
    simp [hashingSinkM, hc]

lemma cwWriteLoop_total {σ : Type} {S : SinkM σ} (hS : PerfectSink S) :
    ∀ (fuel : Nat) (p : Bytes) (cw : ChunkWriter) (s : σ) (n : Nat),
      0 < cw.chunkSize → 2 * p.length + 2 ≤ fuel →
      ∃ cw1 s1,
        cwWriteLoop S fuel cw s p n = some ((cw1, s1), n + p.length, none) ∧
        cw1.chunkSize = cw.chunkSize ∧ cw1.name = cw.name := by
  intro fuel
  induction fuel using Nat.strong_induction_on with
  | _ fuel ih =>
    intro p cw s n hcs hfuel
    obtain ⟨f, rfl⟩ : ∃ f, fuel = f + 1 := ⟨fuel - 1, by omega⟩
    by_cases hp : p.length = 0
    · refine ⟨cw, s, ?_, rfl, rfl⟩
      simp [cwWriteLoop, hp]
    · by_cases hbr : bytesRemainingInChunk cw = 0
      · -- rotation: newChunk succeeds against a perfect sink
        have hrot : ∃ s2, cwNewChunk S cw s =
            (({ cw with
                curFilename := cw.name ++ ".part." ++ toString cw.curIndex,
                curIndex := cw.curIndex + 1, curOffset := 0,
                curOpen := true }, s2), none) := by
          cases hcw : cw.curOpen with
          | false =>
            rcases hopen : S.openFile s
                (cw.name ++ ".part." ++ toString cw.curIndex) with ⟨so, eo⟩
            have h := hS.op s (cw.name ++ ".part." ++ toString cw.curIndex)
            rw [hopen] at h
            subst h
            exact ⟨so, by simp [cwNewChunk, hcw, hopen]⟩
          | true =>
            rcases hclose : S.closeFile s cw.curFilename with ⟨sc, ec⟩
            have h := hS.cl s cw.curFilename
            rw [hclose] at h
            subst h
            rcases hopen : S.openFile sc
                (cw.name ++ ".part." ++ toString cw.curIndex) with ⟨so, eo⟩
            have h := hS.op sc (cw.name ++ ".part." ++ toString cw.curIndex)
            rw [hopen] at h
            subst h
            exact ⟨so, by simp [cwNewChunk, cwCloseChunk, hcw, hclose, hopen]⟩
        obtain ⟨s2, hrot⟩ := hrot
        have hstep : cwWriteLoop S (f + 1) cw s p n =
            cwWriteLoop S f { cw with
              curFilename := cw.name ++ ".part." ++ toString cw.curIndex,
              curIndex := cw.curIndex + 1, curOffset := 0,
              curOpen := true } s2 p n := by
          simp [cwWriteLoop, hp, hbr, hrot]
        obtain ⟨f1, rfl⟩ : ∃ f1, f = f1 + 1 := ⟨f - 1, by omega⟩
        set cwo : ChunkWriter := { cw with
          curFilename := cw.name ++ ".part." ++ toString cw.curIndex,
          curIndex := cw.curIndex + 1, curOffset := 0,
          curOpen := true } with hcwo
        have hbro : bytesRemainingInChunk cwo = cw.chunkSize := by
          simp [bytesRemainingInChunk, hcwo]
        have hbro0 : ¬ bytesRemainingInChunk cwo = 0 := by omega
        set b : Nat := if cw.chunkSize > p.length then p.length
          else cw.chunkSize with hb
        have hble : b ≤ p.length := by
          rw [hb]; split <;> omega
        have hb1 : 1 ≤ b := by
          rw [hb]; split <;> omega
        rcases hwr : S.writeFile s2 cwo.curFilename (p.take b) with ⟨sw, nw, ew⟩
        have h := hS.wr s2 cwo.curFilename (p.take b)
        rw [hwr] at h
        simp only [List.length_take] at h
        have hnw : nw = b := by
          have := h.1
          simp at this
          omega
        have hew : ew = none := h.2
        subst hnw hew
        have hcs0 : ¬ cw.chunkSize = 0 := by omega
        have hstep2 : cwWriteLoop S (f1 + 1) cwo s2 p n =
            cwWriteLoop S f1 { cwo with curOffset := cwo.curOffset + b } sw
              (p.drop b) (n + b) := by
          simp only [cwWriteLoop, hp, if_false, hbro, hcs0, ← hb, hwr]
        have hfuel2 : 2 * (p.drop b).length + 2 ≤ f1 := by
          simp only [List.length_drop]
          omega
        obtain ⟨cw1, s1, hres, hch, hnm⟩ := ih f1 (by omega) (p.drop b)
          { cwo with curOffset := cwo.curOffset + b } sw (n + b)
          (by simpa [hcwo] using hcs) hfuel2
        refine ⟨cw1, s1, ?_, by simpa [hcwo] using hch, by simpa [hcwo] using hnm⟩
        rw [hstep, hstep2, hres]
        have : n + b + (p.drop b).length = n + p.length := by
          simp only [List.length_drop]
          omega
        rw [this]
      · -- a chunk is open with room: one write consumes min(room, len p)
        set b : Nat := if bytesRemainingInChunk cw > p.length then p.length
          else bytesRemainingInChunk cw with hb
        have hble : b ≤ p.length := by
          rw [hb]; split <;> omega
        have hb1 : 1 ≤ b := by
          rw [hb]; split <;> omega
        rcases hwr : S.writeFile s cw.curFilename (p.take b) with ⟨sw, nw, ew⟩
        have h := hS.wr s cw.curFilename (p.take b)
        rw [hwr] at h
        simp only [List.length_take] at h
        have hnw : nw = b := by
          have := h.1
          simp at this
          omega
        have hew : ew = none := h.2
        subst hnw hew
        have hstep : cwWriteLoop S (f + 1) cw s p n =
            cwWriteLoop S f { cw with curOffset := cw.curOffset + b } sw
              (p.drop b) (n + b) := by
          simp only [cwWriteLoop, hp, if_false, hbr, ← hb, hwr]
        have hfuel2 : 2 * (p.drop b).length + 2 ≤ f := by
          simp only [List.length_drop]
          omega
        obtain ⟨cw1, s1, hres, hch, hnm⟩ := ih f (by omega) (p.drop b)
          { cw with curOffset := cw.curOffset + b } sw (n + b)
          (by simpa using hcs) hfuel2
        refine ⟨cw1, s1, ?_, by simpa using hch, by simpa using hnm⟩
        rw [hstep, hres]
        have : n + b + (p.drop b).length = n + p.length := by
          simp only [List.length_drop]
          omega
        rw [this]

lemma lowWrite_total {σ : Type} {S : SinkM σ} (hS : PerfectSink S) (cnt : Nat)
    (cw : ChunkWriter) (hs : HashingSink σ) (p : Bytes)
    (hcs : 0 < cw.chunkSize) :
    ∃ cw1 hs1, lowWrite S (cnt, (cw, hs)) p =
      some ((cnt + p.length, (cw1, hs1)), p.length, none) ∧
      cw1.chunkSize = cw.chunkSize ∧ cw1.name = cw.name := by
  obtain ⟨cw1, hs1, heq, hch, hnm⟩ := cwWriteLoop_total (perfect_hashingSinkM hS)
    (4 * p.length + 4) p cw hs 0 hcs (by omega)
  refine ⟨cw1, hs1, ?_, hch, hnm⟩
  simp [lowWrite, countingWrite, cwWrite, heq]

lemma aesWrite_fresh {σ : Type} {S : SinkM σ} (hS : PerfectSink S)
    (crypt : Bytes → Bytes) (hlen : ∀ b, (crypt b).length = b.length)
    (cnt : Nat) (cw : ChunkWriter) (hs : HashingSink σ) (p : Bytes)
    (hcs : 0 < cw.chunkSize) :
    ∃ cw1 hs1,
      aesWrite crypt (lowWrite S) (⟨[], false⟩, (cnt, (cw, hs))) p =
        some ((⟨p.drop (p.length / 16 * 16), false⟩,
          (cnt + p.length / 16 * 16, (cw1, hs1))), p.length, none) ∧
      cw1.chunkSize = cw.chunkSize ∧ cw1.name = cw.name := by
  have hkle : p.length / 16 * 16 ≤ p.length := Nat.div_mul_le_self p.length 16
  have hclen : (crypt (p.take (p.length / 16 * 16))).length =
      p.length / 16 * 16 := by
    rw [hlen, List.length_take]
    omega
  obtain ⟨cw1, hs1, hlw, hch, hnm⟩ := lowWrite_total hS cnt cw hs
    (crypt (p.take (p.length / 16 * 16))) hcs
  rw [hclen] at hlw
  refine ⟨cw1, hs1, ?_, hch, hnm⟩
  have hstart : aesWrite crypt (lowWrite S) (⟨[], false⟩, (cnt, (cw, hs))) p =
      aesWriteRest crypt (lowWrite S) ⟨[], false⟩ (cnt, (cw, hs)) p 0 := by
    simp [aesWrite]
  rw [hstart]
  rw [aesWriteRest, aesWriteBlocks, aesCipherOf, hlw]
  by_cases hrem : p.length > p.length / 16 * 16
  · simp only [hrem, if_true, List.nil_append, List.length_drop, Nat.zero_add]
    have h2 : p.length / 16 * 16 + (p.length - p.length / 16 * 16) =
        p.length := by omega
    rw [h2]
  · have hk : p.length / 16 * 16 = p.length := by omega
    simp only [hrem, if_false]
    rw [hk, List.drop_length]
    simp

lemma aesClose_pad {σ : Type} {S : SinkM σ} (hS : PerfectSink S)
    (crypt : Bytes → Bytes) (hlen : ∀ b, (crypt b).length = b.length)
    (a : AesCbcWriter) (cnt : Nat) (cw : ChunkWriter) (hs : HashingSink σ)
    (hcs : 0 < cw.chunkSize) (hbuf : a.buffer.length < 16)
    (hop : a.closed = false) :
    ∃ cw1 hs1,
      aesClose crypt (lowWrite S) a (cnt, (cw, hs)) =
        some ((⟨aesPaddedBuffer a, true⟩, (cnt + 16, (cw1, hs1))), none) ∧
      cw1.chunkSize = cw.chunkSize ∧ cw1.name = cw.name := by
  have hpl : (aesPaddedBuffer a).length = 16 := by
    simp only [aesPaddedBuffer, List.length_append, List.length_replicate]
    omega
  have hcipher : aesCipherOf crypt (aesPaddedBuffer a) =
      crypt (aesPaddedBuffer a) := by
    rw [aesCipherOf, hpl]
    norm_num
    rw [List.take_of_length_le (le_of_eq hpl)]
  have hclen : (crypt (aesPaddedBuffer a)).length = 16 := by rw [hlen, hpl]
  obtain ⟨cw1, hs1, hlw, hch, hnm⟩ := lowWrite_total hS cnt cw hs
    (crypt (aesPaddedBuffer a)) hcs
  rw [hclen] at hlw
  refine ⟨cw1, hs1, ?_, hch, hnm⟩
  simp [aesClose, hop, aesWriteBlocks, hcipher, hlw]

lemma bwClose_good {σ : Type} {S : SinkM σ} (hS : PerfectSink S) (P : Params)
    (hlen : ∀ b, (P.crypt b).length = b.length) (bw : BundleWriter σ)
    (hcl : bw.closed = false) (hgz : bw.gz.closed = false)
    (hrem : bw.tar.remaining = 0) (haes : bw.aes = newAesCbcWriter)
    (hcs : 0 < bw.cw.chunkSize) :
    ∃ r, bwClose P S bw = some r ∧
      r.bw.sha1Input = bw.sha1Input ++
        (List.replicate bw.tar.pad 0 ++ List.replicate 1024 0) ∧
      r.bw.trueSize = bw.trueSize ∧
      r.bw.basename = bw.basename ∧
      r.bw.size = bw.size ∧
      r.bw.closed = true ∧
      r.trace = [Stage.tarS, Stage.gzS, Stage.aesS, Stage.cwS] ∧
      r.bw.bundledSize = bw.bundledSize +
        ((gzipStream P.deflate (bw.gz.buffer ++
          (List.replicate bw.tar.pad 0 ++
            List.replicate 1024 0))).length / 16 * 16 + 16) ∧
      r.errs = (if bw.size = bw.trueSize then []
        else [GoErr.sizeMismatch bw.size bw.trueSize]) ∧
      r.ret = r.errs.head? := by
  have htc : tarClose teeWrite bw.tar (bw.sha1Input, bw.gz) =
      some (({ bw.tar with pad := 0 },
        (bw.sha1Input ++ (List.replicate bw.tar.pad 0 ++ List.replicate 1024 0),
         ⟨bw.gz.buffer ++ (List.replicate bw.tar.pad 0 ++ List.replicate 1024 0),
          false⟩)), none) := by
    simp [tarClose, tarFlush, hrem, teeWrite, gzWrite, hgz, List.append_assoc]
  set D : Bytes := bw.gz.buffer ++
    (List.replicate bw.tar.pad 0 ++ List.replicate 1024 0) with hD
  set G : Bytes := gzipStream P.deflate D with hG
  obtain ⟨cw1, hs1, haw, hch1, hnm1⟩ := aesWrite_fresh hS P.crypt hlen
    bw.bundledSize bw.cw bw.hs G hcs
  have hgc : gzClose P.deflate (aesLowWrite P.crypt S) ⟨D, false⟩
      (bw.aes, (bw.bundledSize, (bw.cw, bw.hs))) =
      some ((⟨D, true⟩,
        (⟨G.drop (G.length / 16 * 16), false⟩,
         (bw.bundledSize + G.length / 16 * 16, (cw1, hs1)))), none) := by
    rw [haes]
    simp [gzClose, aesLowWrite, ← hG, newAesCbcWriter, haw]
  have hblt : (⟨G.drop (G.length / 16 * 16), false⟩ : AesCbcWriter).buffer.length
      < 16 := by
    simp only [List.length_drop]
    omega
  obtain ⟨cw2, hs2, hac, hch2, hnm2⟩ := aesClose_pad hS P.crypt hlen
    ⟨G.drop (G.length / 16 * 16), false⟩ (bw.bundledSize + G.length / 16 * 16)
    cw1 hs1 (by omega) hblt rfl
  have hcwc : ∃ cwX hsX,
      cwClose (hashingSinkM S) cw2 hs2 = ((cwX, hsX), none) := by
    cases hco : cw2.curOpen with
    | false => exact ⟨cw2, hs2, by simp [cwClose, hco]⟩
    | true =>
      rcases hcf : (hashingSinkM S).closeFile hs2 cw2.curFilename with ⟨hsX, e⟩
      have h := (perfect_hashingSinkM hS).cl hs2 cw2.curFilename
      rw [hcf] at h
      subst h
      exact ⟨{ cw2 with curOpen := false }, hsX,
        by simp [cwClose, hco, cwCloseChunk, hcf]⟩
  obtain ⟨cwX, hsX, hcwc⟩ := hcwc
  have hmain : bwClose P S bw = some ⟨{ bw with
      tar := { bw.tar with pad := 0 },
      sha1Input := bw.sha1Input ++
        (List.replicate bw.tar.pad 0 ++ List.replicate 1024 0),
      gz := ⟨D, true⟩,
      aes := ⟨aesPaddedBuffer ⟨G.drop (G.length / 16 * 16), false⟩, true⟩,
      bundledSize := bw.bundledSize + G.length / 16 * 16 + 16,
      cw := cwX, hs := hsX, closed := true },
      ([none, none, none, none,
        if bw.size = bw.trueSize then none
        else some (GoErr.sizeMismatch bw.size bw.trueSize)].filterMap id).head?,
      [none, none, none, none,
        if bw.size = bw.trueSize then none
        else some (GoErr.sizeMismatch bw.size bw.trueSize)].filterMap id,
      [Stage.tarS, Stage.gzS, Stage.aesS, Stage.cwS]⟩ := by
    rw [bwClose]
    simp only [hcl, Bool.false_eq_true, if_false, htc, hgc, hac, hcwc]
  refine ⟨_, hmain, rfl, rfl, rfl, rfl, rfl, rfl, ?_, ?_, rfl⟩
  · show bw.bundledSize + G.length / 16 * 16 + 16 =
      bw.bundledSize + (G.length / 16 * 16 + 16)
    omega
  · by_cases hsz : bw.size = bw.trueSize <;> simp [hsz]

lemma bwWriteAll_steps {σ : Type} (P : Params) (h : TarHeader) :
    ∀ (ws : List Bytes) (bw : BundleWriter σ),
      bw.didInitialWrite = true → bw.gz.closed = false →
      bw.tar.lastHeader = some h → (ws.flatten).length ≤ bw.tar.remaining →
      bwWriteAll P bw ws = some ({ bw with
        tar := { bw.tar with
                 remaining := bw.tar.remaining - (ws.flatten).length },
        sha1Input := bw.sha1Input ++ ws.flatten,
        gz := ⟨bw.gz.buffer ++ ws.flatten, false⟩,
        trueSize := bw.trueSize + (ws.flatten).length }, none) := by
  intro ws
  induction ws with
  | nil =>
    intro bw hDI hgz hLH hlen
    simp [bwWriteAll, ← hgz]
  | cons w rest ih =>
    intro bw hDI hgz hLH hlen
    have hflat : (List.flatten (w :: rest)).length =
        w.length + rest.flatten.length := by
      simp
    rw [hflat] at hlen
    have hw : w.length ≤ bw.tar.remaining := by omega
    rw [bwWriteAll, bwWrite_step P bw w h hDI hgz hLH hw]
    dsimp only
    refine (ih _ ?_ ?_ ?_ ?_).trans ?_
    · exact hDI
    · rfl
    · exact hLH
    · show rest.flatten.length ≤ bw.tar.remaining - w.length
      omega
    · simp only [List.flatten_cons, List.length_append, List.append_assoc,
        Nat.sub_sub, Nat.add_assoc]

lemma runBundle_good {σ : Type} {S : SinkM σ} (hS : PerfectSink S) (P : Params)
    (hlen : ∀ b, (P.crypt b).length = b.length)
    (basename : String) (size : Nat) (s0 : σ) (w0 : Bytes) (ws : List Bytes)
    (hsum : (List.flatten (w0 :: ws)).length = size) :
    ∃ r, runBundle P S basename size s0 (w0 :: ws) = some r ∧
      r.bw.sha1Input =
        tarStreamOf basename size P.mtime (List.flatten (w0 :: ws)) ∧
      r.bw.trueSize = size ∧
      r.bw.basename = basename ∧ r.bw.size = size ∧ r.bw.closed = true ∧
      r.trace = [Stage.tarS, Stage.gzS, Stage.aesS, Stage.cwS] ∧
      r.bw.bundledSize = 16 * ((gzipStream P.deflate
        (tarStreamOf basename size P.mtime
          (List.flatten (w0 :: ws)))).length / 16 + 1) ∧
      r.errs = [] ∧ r.ret = none := by
  have hflat : (List.flatten (w0 :: ws)).length =
      w0.length + ws.flatten.length := by simp
  have hw0 : w0.length ≤ size := by omega
  have h1 := bwWrite_first P (bwNew basename size s0) w0 rfl rfl
    (by simpa [bwNew] using hw0)
  have hwa : bwWriteAll P (bwNew basename size s0) (w0 :: ws) =
      some ({ bwNew basename size s0 with
        tar := ⟨some (initialHeader basename size P.mtime),
               size - w0.length - ws.flatten.length,
               (512 - size % 512) % 512⟩,
        sha1Input := tarHeaderBytes (initialHeader basename size P.mtime) ++
          (w0 ++ ws.flatten),
        gz := ⟨tarHeaderBytes (initialHeader basename size P.mtime) ++
          (w0 ++ ws.flatten), false⟩,
        trueSize := w0.length + ws.flatten.length,
        didInitialWrite := true }, none) := by
    rw [bwWriteAll, h1]
    dsimp only
    refine (bwWriteAll_steps P (initialHeader basename size P.mtime)
      ws _ ?_ ?_ ?_ ?_).trans ?_
    · rfl
    · rfl
    · rfl
    · show ws.flatten.length ≤ (bwNew basename size s0 : BundleWriter σ).size -
        w0.length
      simp only [bwNew]
      omega
    · simp [bwNew, newGzipWriter, newTarWriter, newAesCbcWriter,
        newHashingSink, newChunkWriter, List.append_assoc, Nat.sub_sub]
  obtain ⟨r, hcl, hsha, htrue, hbn, hsz, hcld, htr, hbnd, herrs, hret⟩ :=
    bwClose_good hS P hlen ({ bwNew basename size s0 with
        tar := ⟨some (initialHeader basename size P.mtime),
               size - w0.length - ws.flatten.length,
               (512 - size % 512) % 512⟩,
        sha1Input := tarHeaderBytes (initialHeader basename size P.mtime) ++
          (w0 ++ ws.flatten),
        gz := ⟨tarHeaderBytes (initialHeader basename size P.mtime) ++
          (w0 ++ ws.flatten), false⟩,
        trueSize := w0.length + ws.flatten.length,
        didInitialWrite := true })
      rfl rfl (by show size - w0.length - ws.flatten.length = 0; omega) rfl
      (by show 0 < (newChunkWriter basename (10 * 1024 * 1024)).chunkSize
          simp [newChunkWriter])
  have hts : size = w0.length + ws.flatten.length := by omega
  dsimp only [bwNew] at hsha htrue hbn hsz hbnd herrs
  have herrsnil : r.errs = [] := by
    rw [herrs, if_pos hts]
  have hretnone : r.ret = none := by
    rw [hret, herrsnil]
    rfl
  refine ⟨r, ?_, ?_, ?_, ?_, ?_, hcld, htr, ?_, herrsnil, hretnone⟩
  · rw [runBundle, hwa]
    exact hcl
  · rw [hsha]
    simp [tarStreamOf, List.flatten_cons, List.append_assoc]
  · rw [htrue]
    omega
  · rw [hbn]
  · rw [hsz]
  · rw [hbnd]
    rw [show (tarHeaderBytes (initialHeader basename size P.mtime) ++
        (w0 ++ ws.flatten)) ++
        (List.replicate ((512 - size % 512) % 512) 0 ++
          List.replicate 1024 0) =
        tarStreamOf basename size P.mtime (List.flatten (w0 :: ws)) from by
      simp [tarStreamOf, List.flatten_cons, List.append_assoc]]
    omega

lemma bwWrite_nil_fresh {σ : Type} (P : Params) (basename : String)
    (size : Nat) (s0 : σ) :
    bwWrite P (bwNew basename size s0) [] =
      some ({ bwNew basename size s0 with
        tar := ⟨some (initialHeader basename size P.mtime), size,
               (512 - size % 512) % 512⟩,
        sha1Input := tarHeaderBytes (initialHeader basename size P.mtime),
        gz := ⟨tarHeaderBytes (initialHeader basename size P.mtime), false⟩,
        didInitialWrite := true }, 0, none) := by
  have h := bwWrite_first P (bwNew basename size s0) [] rfl rfl (Nat.zero_le _)
  simpa [bwNew, newGzipWriter] using h

/-- Claim C9 (confirmed). A Write of an empty slice on a fresh bundle
writer performs the Fresh-to-Writing transition: the 512-byte tar header
block enters the pipeline (the SHA-1 input stream and the gzip buffer),
didInitialWrite is set, and the call returns count 0 with no error. -/
theorem empty_first_write_emits_header :
    ∀ (σ : Type) (P : Params) (basename : String) (size : Nat) (s0 : σ),
      bwWrite P (bwNew basename size s0) [] =
        some ({ bwNew basename size s0 with
          tar := ⟨some (initialHeader basename size P.mtime), size,
                 (512 - size % 512) % 512⟩,
          sha1Input := tarHeaderBytes (initialHeader basename size P.mtime),
          gz := ⟨tarHeaderBytes (initialHeader basename size P.mtime), false⟩,
          didInitialWrite := true }, 0, none) ∧
      (tarHeaderBytes (initialHeader basename size P.mtime)).length = 512 := by
  intro σ P basename size s0
  exact ⟨bwWrite_nil_fresh P basename size s0, length_tarHeaderBytes _⟩

/-- Claim C5 (corrected). The metadata name becomes the image name of the
manifest, but the single tar entry is named after the bundle writer
basename, an independent parameter of NewWriter; the two coincide only
when the caller passes the same string to both. -/
theorem metadata_name_vs_tar_entry_name :
    (∀ (σ : Type) (P : Params) (basename : String) (size : Nat) (s0 : σ),
      ∃ bw1, bwWrite P (bwNew basename size s0) [] = some (bw1, 0, none) ∧
        bw1.tar.lastHeader = some (initialHeader basename size P.mtime) ∧
        (initialHeader basename size P.mtime).name = basename) ∧
    (∀ md : Metadata, (toManifest md).image.name = md.name) := by
  constructor
  · intro σ P basename size s0
    refine ⟨_, bwWrite_nil_fresh P basename size s0, rfl, rfl⟩
  · intro md
    rfl

/-- Counterexample to claim C5 as stated: a bundling whose writer
basename is b and whose metadata name is a produces a tar entry named b,
not the metadata name a, while the manifest image name is a. -/
theorem metadata_name_not_tar_entry_name :
    (bwWrite idParams (bwNew "b" 0 ([] : AccState)) []).map
      (fun x => x.1.tar.lastHeader.map TarHeader.name) = some (some "b") ∧
    (toManifest ⟨"a", "x86_64", "1", "us-east-1", "",
      ⟨"n", "v", "r", ""⟩⟩).image.name = "a" ∧
    ("b" : String) ≠ "a" := by
  refine ⟨?_, rfl, by decide⟩
  rw [bwWrite_nil_fresh idParams "b" 0 ([] : AccState)]
  rfl

/-- Claim C1 (corrected). The image digest recorded by populateManifest
(algorithm SHA1) is computed over the byte stream emitted by the tar
framer — the 512-byte header, the caller bytes, the end-of-entry padding
and the 1024-byte trailer — because the SHA-1 tee of NewWriter sits
between the tar writer and the gzip writer. -/
theorem image_digest_covers_tar_framing :
    ∀ (σ : Type) (S : SinkM σ) (P : Params) (basename : String) (size : Nat)
      (s0 : σ) (w0 : Bytes) (ws : List Bytes) (md : Metadata),
      PerfectSink S → (∀ b, (P.crypt b).length = b.length) →
      (List.flatten (w0 :: ws)).length = size →
      ∃ r, runBundle P S basename size s0 (w0 :: ws) = some r ∧ r.ret = none ∧
        (populateManifest r.bw (toManifest md)).image.digestAlgorithm =
          "SHA1" ∧
        (populateManifest r.bw (toManifest md)).image.digestInput =
          tarStreamOf basename size P.mtime (List.flatten (w0 :: ws)) := by
  intro σ S P basename size s0 w0 ws md hS hlen hsum
  obtain ⟨r, hrun, hsha, _, _, _, _, _, _, _, hret⟩ :=
    runBundle_good hS P hlen basename size s0 w0 ws hsum
  exact ⟨r, hrun, hret, rfl, by simp [populateManifest, hsha]⟩

/-- Witness for C1 at a concrete bundling of three bytes. -/
theorem image_digest_covers_tar_framing_witness :
    ∃ r, runBundle cxParams accSinkM "img" 3 ([] : AccState) [[1, 2, 3]] =
        some r ∧ r.ret = none ∧
      (populateManifest r.bw (toManifest ⟨"img", "x86_64", "1", "us-east-1",
        "", ⟨"n", "v", "r", ""⟩⟩)).image.digestAlgorithm = "SHA1" ∧
      (populateManifest r.bw (toManifest ⟨"img", "x86_64", "1", "us-east-1",
        "", ⟨"n", "v", "r", ""⟩⟩)).image.digestInput =
        tarStreamOf "img" 3 cxParams.mtime (List.flatten [[1, 2, 3]]) :=
  image_digest_covers_tar_framing AccState accSinkM cxParams "img" 3 []
    [1, 2, 3] [] ⟨"img", "x86_64", "1", "us-east-1", "", ⟨"n", "v", "r", ""⟩⟩
    perfect_accSinkM (fun _ => rfl) rfl

/-- Counterexample to claim C1 as stated: bundling the three caller bytes
1, 2, 3 records a digest computed over a 2048-byte stream (header,
payload, padding, trailer), not over exactly those three bytes. -/
theorem image_digest_not_caller_bytes :
    ∃ r, runBundle cxParams accSinkM "img" 3 ([] : AccState) [[1, 2, 3]] =
        some r ∧
      (populateManifest r.bw (toManifest ⟨"img", "x86_64", "1", "us-east-1",
        "", ⟨"n", "v", "r", ""⟩⟩)).image.digestInput ≠ [1, 2, 3] := by
  obtain ⟨r, hrun, hsha, _⟩ := runBundle_good perfect_accSinkM cxParams
    (fun b => rfl) "img" 3 ([] : AccState) [1, 2, 3] [] rfl
  refine ⟨r, hrun, ?_⟩
  have hdi : (populateManifest r.bw (toManifest ⟨"img", "x86_64", "1",
      "us-east-1", "", ⟨"n", "v", "r", ""⟩⟩)).image.digestInput =
      tarStreamOf "img" 3 cxParams.mtime (List.flatten [[1, 2, 3]]) := by
    simp [populateManifest, hsha]
  rw [hdi]
  intro heq
  have hl := congrArg List.length heq
  rw [tarStreamOf] at hl
  simp [length_tarHeaderBytes] at hl

/-- Claim C8 (confirmed). The AES writer only hands whole 16-byte blocks
downstream; its Close pads the buffered partial block with N = 16 minus
the buffered length bytes, N between 1 and 16, to a full block; and after
a successful Close of a bundling the total ciphertext byte count
(bundled_size) is a positive multiple of 16. -/
theorem bundled_size_multiple_of_16 :
    (∀ (crypt : Bytes → Bytes) (p : Bytes),
      (∀ b, (crypt b).length = b.length) →
      (aesCipherOf crypt p).length % 16 = 0) ∧
    (∀ a : AesCbcWriter, a.buffer.length < 16 →
      1 ≤ 16 - a.buffer.length ∧ 16 - a.buffer.length ≤ 16 ∧
      (aesPaddedBuffer a).length = 16) ∧
    (∀ (σ : Type) (S : SinkM σ) (P : Params) (basename : String) (size : Nat)
      (s0 : σ) (w0 : Bytes) (ws : List Bytes),
      PerfectSink S → (∀ b, (P.crypt b).length = b.length) →
      (List.flatten (w0 :: ws)).length = size →
      ∃ r, runBundle P S basename size s0 (w0 :: ws) = some r ∧ r.ret = none ∧
        r.bw.bundledSize % 16 = 0 ∧ 0 < r.bw.bundledSize) := by
  refine ⟨?_, ?_, ?_⟩
  · intro crypt p hlen
    rw [aesCipherOf, hlen, List.length_take]
    omega
  · intro a h
    refine ⟨by omega, by omega, ?_⟩
    simp only [aesPaddedBuffer, List.length_append, List.length_replicate]
    omega
  · intro σ S P basename size s0 w0 ws hS hlen hsum
    obtain ⟨r, hrun, _, _, _, _, _, _, hbnd, _, hret⟩ :=
      runBundle_good hS P hlen basename size s0 w0 ws hsum
    refine ⟨r, hrun, hret, ?_, ?_⟩ <;> rw [hbnd] <;> omega

/-- Witness for C8 at a concrete cipher, padding state and bundling. -/
theorem bundled_size_multiple_of_16_witness :
    (aesCipherOf id [1, 2, 3]).length % 16 = 0 ∧
    (aesPaddedBuffer ⟨[], false⟩).length = 16 ∧
    (∃ r, runBundle cxParams accSinkM "img" 1 ([] : AccState) [[65]] =
        some r ∧ r.ret = none ∧
      r.bw.bundledSize % 16 = 0 ∧ 0 < r.bw.bundledSize) :=
  ⟨bundled_size_multiple_of_16.1 id [1, 2, 3] (fun b => rfl),
   (bundled_size_multiple_of_16.2.1 ⟨[], false⟩ (by decide)).2.2,
   bundled_size_multiple_of_16.2.2 AccState accSinkM cxParams "img" 1 []
     [65] [] perfect_accSinkM (fun b => rfl) rfl⟩

/-- Claim C6 (confirmed). Writer.Close invokes the stage closes in the
order tar, gzip, AES, chunk writer, attempting every stage (the trace is
always the full ordered list), returns the first collected error, and
marks the writer closed even when a stage failed; a Close on an already
closed writer returns an error without touching the stages. The third
conjunct exhibits a run (declared 1024 bytes, wrote 512) in which the tar
stage fails, yet gzip, AES and the chunk writer still run — the bundled
ciphertext exists, is a multiple of 16, and the part file record was
produced by the chunk-writer close — the writer ends closed and the
returned error is the first collected one. -/
theorem close_order_best_effort_first_error :
    (∀ (σ : Type) (P : Params) (S : SinkM σ) (bw : BundleWriter σ)
      (r : CloseResult σ), bw.closed = false → bwClose P S bw = some r →
      r.trace = [Stage.tarS, Stage.gzS, Stage.aesS, Stage.cwS] ∧
      r.bw.closed = true ∧ r.ret = r.errs.head?) ∧
    (∀ (σ : Type) (P : Params) (S : SinkM σ) (bw : BundleWriter σ),
      bw.closed = true →
      bwClose P S bw = some ⟨bw, some GoErr.writerClosed, [], []⟩) ∧
    (((bwWrite idParams (bwNew "img" 1024 ([] : AccState))
        (List.replicate 512 0)).bind
      (fun x => bwClose idParams accSinkM x.1)).map
      (fun r => (r.ret, r.errs, r.bw.closed)) =
      some (some (GoErr.tarMissedBytes 512),
        [GoErr.tarMissedBytes 512, GoErr.sizeMismatch 1024 512], true)) ∧
    (((bwWrite idParams (bwNew "img" 1024 ([] : AccState))
        (List.replicate 512 0)).bind
      (fun x => bwClose idParams accSinkM x.1)).map
      (fun r => (r.bw.bundledSize % 16, decide (0 < r.bw.bundledSize),
        r.bw.hs.files.length, r.trace)) =
      some (0, true, 1, [Stage.tarS, Stage.gzS, Stage.aesS, Stage.cwS])) := by
  refine ⟨?_, ?_, by decide, by decide⟩
  · intro σ P S bw r hcl hq
    rw [bwClose] at hq
    simp only [hcl, Bool.false_eq_true, if_false] at hq
    rcases h1 : tarClose teeWrite bw.tar (bw.sha1Input, bw.gz) with
      _ | ⟨⟨tw1, shgz⟩, tarErr⟩
    · rw [h1] at hq
      exact absurd hq (by simp)
    · rw [h1] at hq
      dsimp only at hq
      rcases h2 : gzClose P.deflate (aesLowWrite P.crypt S) shgz.2
          (bw.aes, (bw.bundledSize, (bw.cw, bw.hs))) with
        _ | ⟨⟨gz2, aeslow⟩, gzErr⟩
      · rw [h2] at hq
        exact absurd hq (by simp)
      · rw [h2] at hq
        dsimp only at hq
        rcases h3 : aesClose P.crypt (lowWrite S) aeslow.1 aeslow.2 with
          _ | ⟨⟨aes2, low2⟩, aesErr⟩
        · rw [h3] at hq
          exact absurd hq (by simp)
        · rw [h3] at hq
          dsimp only at hq
          injection hq with hq1
          subst hq1
          exact ⟨rfl, rfl, rfl⟩
  · intro σ P S bw hcl
    simp [bwClose, hcl]

/-- Witness for C6: a second Close on an already closed writer fails. -/
theorem close_order_best_effort_first_error_witness :
    bwClose idParams accSinkM
        { bwNew "x" 0 ([] : AccState) with closed := true } =
      some ⟨{ bwNew "x" 0 ([] : AccState) with closed := true },
        some GoErr.writerClosed, [], []⟩ :=
  close_order_best_effort_first_error.2.1 AccState idParams accSinkM
    { bwNew "x" 0 ([] : AccState) with closed := true } rfl

/-! ## Explicit single-chunk runs, for the empty-input boundary claim -/

lemma lowWrite_fresh_explicit {σ : Type} {S : SinkM σ} (hS : PerfectSink S)
    (cnt : Nat) (name : String) (CS : Nat) (s0 : σ) (c : Bytes)
    (hc0 : 0 < c.length) (hcCS : c.length ≤ CS) :
    lowWrite S (cnt, (newChunkWriter name CS, newHashingSink s0)) c =
      some ((cnt + c.length,
        (⟨name, CS, true, name ++ ".part." ++ toString 0, 1, c.length⟩,
         ⟨(S.writeFile (S.openFile s0 (name ++ ".part." ++ toString 0)).1
             (name ++ ".part." ++ toString 0) c).1, [],
          [(name ++ ".part." ++ toString 0, c)]⟩)), c.length, none) := by
  rcases ho : S.openFile s0 (name ++ ".part." ++ toString 0) with ⟨so, eo⟩
  have heo : eo = none := by
    have h := hS.op s0 (name ++ ".part." ++ toString 0)
    rw [ho] at h
    exact h
  subst heo
  rcases hw : S.writeFile so (name ++ ".part." ++ toString 0) c with
    ⟨sw, nw, ew⟩
  have h := hS.wr so (name ++ ".part." ++ toString 0) c
  rw [hw] at h
  obtain ⟨hnw, hew⟩ := h
  dsimp only at hnw hew
  subst hnw hew
  have hbytes : (if CS > c.length then c.length else CS) = c.length := by
    split <;> omega
  have hcs0 : ¬ CS = 0 := by omega
  have hlen0 : ¬ c.length = 0 := by omega
  rw [lowWrite, countingWrite]
  dsimp only
  rw [cwWrite]
  dsimp only
  rw [show 4 * c.length + 4 = ((4 * c.length + 1) + 1 + 1) + 1 from by omega]
  simp [cwWriteLoop, hlen0, bytesRemainingInChunk, newChunkWriter, cwNewChunk,
    hashingSinkM, newHashingSink, ho, hcs0, hbytes, List.take_length,
    updateBytes, hw, lookupBytes]

lemma lowWrite_open_explicit {σ : Type} {S : SinkM σ} (hS : PerfectSink S)
    (cnt : Nat) (cw : ChunkWriter) (hs : HashingSink σ) (c : Bytes)
    (hcw : cw.curOpen = true) (hc0 : 0 < c.length)
    (hroom : cw.curOffset + c.length ≤ cw.chunkSize) :
    lowWrite S (cnt, (cw, hs)) c =
      some ((cnt + c.length,
        ({ cw with curOffset := cw.curOffset + c.length },
         { hs with
           s := (S.writeFile hs.s cw.curFilename c).1,
           writers := updateBytes hs.writers cw.curFilename c })),
        c.length, none) := by
  rcases hw : S.writeFile hs.s cw.curFilename c with ⟨sw, nw, ew⟩
  have h := hS.wr hs.s cw.curFilename c
  rw [hw] at h
  obtain ⟨hnw, hew⟩ := h
  dsimp only at hnw hew
  subst hnw hew
  have hbr : bytesRemainingInChunk cw = cw.chunkSize - cw.curOffset := by
    simp [bytesRemainingInChunk, hcw]
  have hbr0 : ¬ bytesRemainingInChunk cw = 0 := by
    rw [hbr]
    omega
  have hbytes : (if bytesRemainingInChunk cw > c.length then c.length
      else bytesRemainingInChunk cw) = c.length := by
    rw [hbr]
    split <;> omega
  have hlen0 : ¬ c.length = 0 := by omega
  rw [lowWrite, countingWrite]
  dsimp only
  rw [cwWrite]
  dsimp only
  rw [show 4 * c.length + 4 = ((4 * c.length + 2) + 1) + 1 from by omega]
  simp [cwWriteLoop, hlen0, hbr0, hbytes, List.take_length, hashingSinkM, hw]

lemma cwClose_open_explicit {σ : Type} {S : SinkM σ} (hS : PerfectSink S)
    (cw : ChunkWriter) (hs : HashingSink σ) (hcw : cw.curOpen = true) :
    cwClose (hashingSinkM S) cw hs =
      (({ cw with curOpen := false },
        { hs with
          s := (S.closeFile hs.s cw.curFilename).1,
          files := hs.files ++
            [(cw.curFilename, lookupBytes hs.writers cw.curFilename)] }),
        none) := by
  rcases hc : S.closeFile hs.s cw.curFilename with ⟨sc, ec⟩
  have h := hS.cl hs.s cw.curFilename
  rw [hc] at h
  subst h
  simp [cwClose, hcw, cwCloseChunk, hashingSinkM, hc]

/-- The ciphertext of one bundling as written to the single part file:
the whole blocks of the gzip stream followed by the encrypted PKCS#7
final block. -/
def partFileBytes (crypt : Bytes → Bytes) (G : Bytes) : Bytes :=
  aesCipherOf crypt G ++
    crypt (aesPaddedBuffer ⟨G.drop (G.length / 16 * 16), false⟩)

lemma bwClose_single_chunk {σ : Type} {S : SinkM σ} (hS : PerfectSink S)
    (P : Params) (hlen : ∀ b, (P.crypt b).length = b.length)
    (bw : BundleWriter σ) (s0 : σ)
    (hcl : bw.closed = false) (hgz : bw.gz.closed = false)
    (hrem : bw.tar.remaining = 0) (haes : bw.aes = newAesCbcWriter)
    (hcw : bw.cw = newChunkWriter bw.basename (10 * 1024 * 1024))
    (hhs : bw.hs = newHashingSink s0) (hbnd : bw.bundledSize = 0)
    (hG : (gzipStream P.deflate (bw.gz.buffer ++
      (List.replicate bw.tar.pad 0 ++ List.replicate 1024 0))).length + 16 ≤
      10 * 1024 * 1024) :
    ∃ r, bwClose P S bw = some r ∧
      r.bw.hs.files = [(bw.basename ++ ".part." ++ toString 0,
        partFileBytes P.crypt (gzipStream P.deflate (bw.gz.buffer ++
          (List.replicate bw.tar.pad 0 ++ List.replicate 1024 0))))] ∧
      (partFileBytes P.crypt (gzipStream P.deflate (bw.gz.buffer ++
          (List.replicate bw.tar.pad 0 ++
            List.replicate 1024 0)))).length = r.bw.bundledSize ∧
      r.bw.bundledSize = (gzipStream P.deflate (bw.gz.buffer ++
        (List.replicate bw.tar.pad 0 ++
          List.replicate 1024 0))).length / 16 * 16 + 16 ∧
      r.bw.trueSize = bw.trueSize ∧ r.bw.closed = true ∧
      r.bw.hs.s = (S.closeFile ((S.writeFile (S.writeFile
          ((S.openFile s0 (bw.basename ++ ".part." ++ toString 0)).1)
          (bw.basename ++ ".part." ++ toString 0)
          (aesCipherOf P.crypt (gzipStream P.deflate (bw.gz.buffer ++
            (List.replicate bw.tar.pad 0 ++ List.replicate 1024 0))))).1
          (bw.basename ++ ".part." ++ toString 0)
          (P.crypt (aesPaddedBuffer ⟨(gzipStream P.deflate (bw.gz.buffer ++
            (List.replicate bw.tar.pad 0 ++
              List.replicate 1024 0))).drop
            ((gzipStream P.deflate (bw.gz.buffer ++
              (List.replicate bw.tar.pad 0 ++
                List.replicate 1024 0))).length / 16 * 16), false⟩))).1)
        (bw.basename ++ ".part." ++ toString 0)).1 ∧
      r.errs = (if bw.size = bw.trueSize then []
        else [GoErr.sizeMismatch bw.size bw.trueSize]) ∧
      r.ret = r.errs.head? := by
  have htc : tarClose teeWrite bw.tar (bw.sha1Input, bw.gz) =
      some (({ bw.tar with pad := 0 },
        (bw.sha1Input ++ (List.replicate bw.tar.pad 0 ++ List.replicate 1024 0),
         ⟨bw.gz.buffer ++ (List.replicate bw.tar.pad 0 ++ List.replicate 1024 0),
          false⟩)), none) := by
    simp [tarClose, tarFlush, hrem, teeWrite, gzWrite, hgz, List.append_assoc]
  set D : Bytes := bw.gz.buffer ++
    (List.replicate bw.tar.pad 0 ++ List.replicate 1024 0) with hD
  set G : Bytes := gzipStream P.deflate D with hGdef
  set k : Nat := G.length / 16 * 16 with hk
  have hG18 : 18 ≤ G.length := by
    rw [hGdef, length_gzipStream]
    omega
  have hk16 : 16 ≤ k := by
    rw [hk]
    have : 1 ≤ G.length / 16 := by omega
    omega
  have hkle : k ≤ G.length := by
    rw [hk]
    exact Nat.div_mul_le_self G.length 16
  set p0 : String := bw.basename ++ ".part." ++ toString 0 with hp0
  set c1 : Bytes := aesCipherOf P.crypt G with hc1
  have hc1len : c1.length = k := by
    rw [hc1, aesCipherOf, hlen, List.length_take]
    omega
  -- the aes write of the whole gzip stream, through the fresh chunk
  have hlw1 := lowWrite_fresh_explicit hS 0 bw.basename (10 * 1024 * 1024)
    s0 c1 (by omega) (by omega)
  have haw : aesWrite P.crypt (lowWrite S)
      (⟨[], false⟩, (0, (newChunkWriter bw.basename (10 * 1024 * 1024),
        newHashingSink s0))) G =
      some ((⟨G.drop k, false⟩,
        (0 + c1.length,
          (⟨bw.basename, 10 * 1024 * 1024, true, p0, 1, c1.length⟩,
           ⟨(S.writeFile (S.openFile s0 p0).1 p0 c1).1, [],
            [(p0, c1)]⟩))), G.length, none) := by
    have hstart : aesWrite P.crypt (lowWrite S)
        (⟨[], false⟩, (0, (newChunkWriter bw.basename (10 * 1024 * 1024),
          newHashingSink s0))) G =
        aesWriteRest P.crypt (lowWrite S) ⟨[], false⟩
          (0, (newChunkWriter bw.basename (10 * 1024 * 1024),
            newHashingSink s0)) G 0 := by
      simp [aesWrite]
    rw [hstart, aesWriteRest, aesWriteBlocks]
    rw [show aesCipherOf P.crypt G = c1 from rfl]
    rw [hlw1]
    rw [hc1len]
    have hrem2 : G.length > k ∨ G.length = k := by omega
    rcases hrem2 with hgt | heq
    · have hn : 0 + k + (G.length - k) = G.length := by omega
      simp only [hgt, if_true, List.nil_append, List.length_drop, hn]
    · have hng : ¬ (G.length > k) := by omega
      simp only [hng, if_false]
      rw [← heq, List.drop_length]
      simp
  set c2 : Bytes := P.crypt (aesPaddedBuffer ⟨G.drop k, false⟩) with hc2
  have hpad16 : (aesPaddedBuffer (⟨G.drop k, false⟩ : AesCbcWriter)).length =
      16 := by
    simp only [aesPaddedBuffer, List.length_append, List.length_replicate,
      List.length_drop]
    omega
  have hc2len : c2.length = 16 := by
    rw [hc2, hlen, hpad16]
  set cwO : ChunkWriter :=
    ⟨bw.basename, 10 * 1024 * 1024, true, p0, 1, c1.length⟩ with hcwO
  set hsO : HashingSink σ :=
    ⟨(S.writeFile (S.openFile s0 p0).1 p0 c1).1, [], [(p0, c1)]⟩ with hhsO
  have hgc : gzClose P.deflate (aesLowWrite P.crypt S) ⟨D, false⟩
      (bw.aes, (bw.bundledSize, (bw.cw, bw.hs))) =
      some ((⟨D, true⟩,
        (⟨G.drop k, false⟩, (0 + c1.length, (cwO, hsO)))), none) := by
    rw [haes, hbnd, hcw, hhs]
    simp only [gzClose, Bool.false_eq_true, if_false, ← hGdef, aesLowWrite,
      newAesCbcWriter, haw]
  have hcipher2 : aesCipherOf P.crypt
      (aesPaddedBuffer (⟨G.drop k, false⟩ : AesCbcWriter)) = c2 := by
    rw [aesCipherOf, hpad16]
    norm_num
    rw [List.take_of_length_le (le_of_eq hpad16)]
  have hlw2 := lowWrite_open_explicit hS (0 + c1.length) cwO hsO c2 rfl
    (by omega)
    (by show c1.length + c2.length ≤ 10 * 1024 * 1024
        omega)
  have hac : aesClose P.crypt (lowWrite S) ⟨G.drop k, false⟩
      (0 + c1.length, (cwO, hsO)) =
      some ((⟨aesPaddedBuffer (⟨G.drop k, false⟩ : AesCbcWriter), true⟩,
        (0 + c1.length + c2.length,
          ({ cwO with curOffset := cwO.curOffset + c2.length },
           { hsO with
             s := (S.writeFile hsO.s cwO.curFilename c2).1,
             writers := updateBytes hsO.writers cwO.curFilename c2 }))),
        none) := by
    rw [aesClose]
    simp only [Bool.false_eq_true, if_false]
    rw [aesWriteBlocks, hcipher2, hlw2]
  have hcc := cwClose_open_explicit hS
    ({ cwO with curOffset := cwO.curOffset + c2.length })
    ({ hsO with
       s := (S.writeFile hsO.s cwO.curFilename c2).1,
       writers := updateBytes hsO.writers cwO.curFilename c2 }) rfl
  have hmain : bwClose P S bw = some ⟨{ bw with
      tar := { bw.tar with pad := 0 },
      sha1Input := bw.sha1Input ++
        (List.replicate bw.tar.pad 0 ++ List.replicate 1024 0),
      gz := ⟨D, true⟩,
      aes := ⟨aesPaddedBuffer (⟨G.drop k, false⟩ : AesCbcWriter), true⟩,
      bundledSize := 0 + c1.length + c2.length,
      cw := { { cwO with curOffset := cwO.curOffset + c2.length } with
              curOpen := false },
      hs := { { hsO with
                s := (S.writeFile hsO.s cwO.curFilename c2).1,
                writers := updateBytes hsO.writers cwO.curFilename c2 } with
              s := (S.closeFile ({ hsO with
                  s := (S.writeFile hsO.s cwO.curFilename c2).1,
                  writers := updateBytes hsO.writers cwO.curFilename c2 }).s
                ({ cwO with
                  curOffset := cwO.curOffset + c2.length }).curFilename).1,
              files := ({ hsO with
                  s := (S.writeFile hsO.s cwO.curFilename c2).1,
                  writers := updateBytes hsO.writers
                    cwO.curFilename c2 }).files ++
                [(({ cwO with
                    curOffset := cwO.curOffset + c2.length }).curFilename,
                  lookupBytes ({ hsO with
                    s := (S.writeFile hsO.s cwO.curFilename c2).1,
                    writers := updateBytes hsO.writers
                      cwO.curFilename c2 }).writers
                    ({ cwO with
                      curOffset := cwO.curOffset +
                        c2.length }).curFilename)] },
      closed := true },
      ([none, none, none, none,
        if bw.size = bw.trueSize then none
        else some (GoErr.sizeMismatch bw.size bw.trueSize)].filterMap id).head?,
      [none, none, none, none,
        if bw.size = bw.trueSize then none
        else some (GoErr.sizeMismatch bw.size bw.trueSize)].filterMap id,
      [Stage.tarS, Stage.gzS, Stage.aesS, Stage.cwS]⟩ := by
    rw [bwClose]
    simp only [hcl, Bool.false_eq_true, if_false, htc, hgc, hac, hcc]
  have hupd : updateBytes [(p0, c1)] p0 c2 = [(p0, c1 ++ c2)] := by
    simp [updateBytes]
  have hlook : lookupBytes [(p0, c1 ++ c2)] p0 = c1 ++ c2 := by
    simp [lookupBytes]
  have hpart : partFileBytes P.crypt G = c1 ++ c2 := by
    rw [partFileBytes, ← hk, ← hc1, ← hc2]
  refine ⟨_, hmain, ?_, ?_, ?_, rfl, rfl, ?_, ?_, rfl⟩
  · show ({ hsO with
        s := (S.writeFile hsO.s cwO.curFilename c2).1,
        writers := updateBytes hsO.writers cwO.curFilename c2 }).files ++
      [(({ cwO with curOffset := cwO.curOffset + c2.length }).curFilename,
        lookupBytes ({ hsO with
          s := (S.writeFile hsO.s cwO.curFilename c2).1,
          writers := updateBytes hsO.writers cwO.curFilename c2 }).writers
        ({ cwO with curOffset := cwO.curOffset + c2.length }).curFilename)] =
      [(p0, partFileBytes P.crypt G)]
    rw [hpart]
    simp only [hhsO, hcwO, hupd, hlook, List.nil_append]
  · show (partFileBytes P.crypt G).length = 0 + c1.length + c2.length
    rw [hpart]
    simp only [List.length_append]
    omega
  · show 0 + c1.length + c2.length = G.length / 16 * 16 + 16
    omega
  · simp [hhsO, hcwO]
  · by_cases hsz : bw.size = bw.trueSize <;> simp [hsz]

/-- Claim C4 (corrected). For empty input (one zero-length Write, then
Close) the bundle consists of exactly one part file, named part.0 after
the basename, whose length equals bundled_size, and a manifest with
size 0 and parts count 1 — but bundled_size is not 16: it is the PKCS#7
padded ciphertext of the gzip stream of the 1536-byte tar stream (header
plus trailer), hence at least 32 bytes and a multiple of 16. -/
theorem empty_input_bundle_shape :
    ∀ (σ : Type) (S : SinkM σ) (P : Params) (basename : String) (s0 : σ)
      (md : Metadata),
      PerfectSink S → (∀ b, (P.crypt b).length = b.length) →
      (gzipStream P.deflate (tarStreamOf basename 0 P.mtime [])).length + 16 ≤
        10 * 1024 * 1024 →
      ∃ r, runBundle P S basename 0 s0 [[]] = some r ∧ r.ret = none ∧
        r.bw.bundledSize = (gzipStream P.deflate
          (tarStreamOf basename 0 P.mtime [])).length / 16 * 16 + 16 ∧
        32 ≤ r.bw.bundledSize ∧ r.bw.bundledSize % 16 = 0 ∧
        r.bw.hs.files = [(basename ++ ".part." ++ toString 0,
          partFileBytes P.crypt (gzipStream P.deflate
            (tarStreamOf basename 0 P.mtime [])))] ∧
        (partFileBytes P.crypt (gzipStream P.deflate
          (tarStreamOf basename 0 P.mtime []))).length = r.bw.bundledSize ∧
        (populateManifest r.bw (toManifest md)).image.size = 0 ∧
        (populateManifest r.bw (toManifest md)).image.partsCount = 1 ∧
        (populateManifest r.bw (toManifest md)).image.parts.length = 1 := by
  intro σ S P basename s0 md hS hlen hG
  have h1 := bwWrite_first P (bwNew basename 0 s0) [] rfl rfl (Nat.zero_le _)
  have hDeq : (({ bwNew basename 0 s0 with
      tar := ⟨some (initialHeader (bwNew basename 0 s0).basename
             (bwNew basename 0 s0).size P.mtime),
             (bwNew basename 0 s0).size - ([] : Bytes).length,
             (512 - (bwNew basename 0 s0).size % 512) % 512⟩,
      sha1Input := (bwNew basename 0 s0).sha1Input ++
        (tarHeaderBytes (initialHeader (bwNew basename 0 s0).basename
          (bwNew basename 0 s0).size P.mtime) ++ ([] : Bytes)),
      gz := ⟨(bwNew basename 0 s0).gz.buffer ++
        (tarHeaderBytes (initialHeader (bwNew basename 0 s0).basename
          (bwNew basename 0 s0).size P.mtime) ++ ([] : Bytes)), false⟩,
      trueSize := (bwNew basename 0 s0).trueSize + ([] : Bytes).length,
      didInitialWrite := true } : BundleWriter σ).gz.buffer ++
      (List.replicate ({ bwNew basename 0 s0 with
      tar := ⟨some (initialHeader (bwNew basename 0 s0).basename
             (bwNew basename 0 s0).size P.mtime),
             (bwNew basename 0 s0).size - ([] : Bytes).length,
             (512 - (bwNew basename 0 s0).size % 512) % 512⟩,
      sha1Input := (bwNew basename 0 s0).sha1Input ++
        (tarHeaderBytes (initialHeader (bwNew basename 0 s0).basename
          (bwNew basename 0 s0).size P.mtime) ++ ([] : Bytes)),
      gz := ⟨(bwNew basename 0 s0).gz.buffer ++
        (tarHeaderBytes (initialHeader (bwNew basename 0 s0).basename
          (bwNew basename 0 s0).size P.mtime) ++ ([] : Bytes)), false⟩,
      trueSize := (bwNew basename 0 s0).trueSize + ([] : Bytes).length,
      didInitialWrite := true } : BundleWriter σ).tar.pad 0 ++
        List.replicate 1024 0)) =
      tarStreamOf basename 0 P.mtime [] := by
    simp [bwNew, newGzipWriter, tarStreamOf, List.append_assoc]
  obtain ⟨r, hclose, hfiles, hplen, hbndv, htruev, hcldv, hss, herrsv, hretv⟩ :=
    bwClose_single_chunk hS P hlen _ s0 rfl rfl rfl rfl rfl rfl rfl
      (by rw [hDeq]; exact hG)
  rw [hDeq] at hfiles hplen hbndv
  have hG18 : 18 ≤ (gzipStream P.deflate
      (tarStreamOf basename 0 P.mtime [])).length := by
    rw [length_gzipStream]
    omega
  have hrun : runBundle P S basename 0 s0 [[]] = some r := by
    rw [runBundle, bwWriteAll, h1]
    dsimp only
    rw [bwWriteAll]
    dsimp only
    exact hclose
  have htrue0 : r.bw.trueSize = 0 := by
    rw [htruev]
    rfl
  have herrsnil : r.errs = [] := by
    rw [herrsv]
    rfl
  have hretnone : r.ret = none := by
    rw [hretv, herrsnil]
    rfl
  have hbn0 : ({ bwNew basename 0 s0 with
      tar := ⟨some (initialHeader (bwNew basename 0 s0).basename
             (bwNew basename 0 s0).size P.mtime),
             (bwNew basename 0 s0).size - ([] : Bytes).length,
             (512 - (bwNew basename 0 s0).size % 512) % 512⟩,
      sha1Input := (bwNew basename 0 s0).sha1Input ++
        (tarHeaderBytes (initialHeader (bwNew basename 0 s0).basename
          (bwNew basename 0 s0).size P.mtime) ++ ([] : Bytes)),
      gz := ⟨(bwNew basename 0 s0).gz.buffer ++
        (tarHeaderBytes (initialHeader (bwNew basename 0 s0).basename
          (bwNew basename 0 s0).size P.mtime) ++ ([] : Bytes)), false⟩,
      trueSize := (bwNew basename 0 s0).trueSize + ([] : Bytes).length,
      didInitialWrite := true } : BundleWriter σ).basename = basename := rfl
  rw [hbn0] at hfiles
  refine ⟨r, hrun, hretnone, hbndv, by omega, by omega, hfiles, ?_, ?_, ?_, ?_⟩
  · rw [hplen, hbndv]
  · simp [populateManifest, htrue0]
  · simp [populateManifest, hfiles, toManifest]
  · simp [populateManifest, hfiles, toManifest]

/-- Counterexample to claim C4 as stated: with the stored-block deflate
model and a length-preserving cipher, the empty-input bundle has
bundled_size 1568 and one part file of 1568 bytes, not 16. The claim
fails because the gzip stream of the 1536-byte tar stream is itself a
nonempty stream (at least 18 bytes), so its padded ciphertext is at
least 32 bytes. -/
theorem empty_input_bundled_size_not_16 :
    ((runBundle cxParams accSinkM "img" 0 ([] : AccState) [[]]).map
      (fun r => r.bw.bundledSize) = some 1568) ∧
    ¬ ((runBundle cxParams accSinkM "img" 0 ([] : AccState) [[]]).map
      (fun r => r.bw.bundledSize) = some 16) := by
  constructor
  · decide
  · decide

/-- Witness for the corrected C4 claim: at the stored-block deflate model,
the identity cipher and basename img, the empty-input run succeeds and its
bundled size is at least 32. -/
theorem empty_input_bundle_shape_witness :
    ∃ r, runBundle cxParams accSinkM "img" 0 ([] : AccState) [[]] = some r ∧
      r.ret = none ∧ 32 ≤ r.bw.bundledSize ∧ r.bw.bundledSize % 16 = 0 := by
  obtain ⟨r, h1, h2, _, h4, h5, _⟩ := empty_input_bundle_shape AccState accSinkM
    cxParams "img" ([] : AccState)
    ⟨"img", "x86_64", "1", "us-east-1", "", ⟨"n", "v", "r", ""⟩⟩
    perfect_accSinkM (fun _ => rfl) (by decide)
  exact ⟨r, h1, h2, h4, h5⟩

end AwsBundle
